import Mathlib

/-!
A verification development for the guest-physical memory virtualization
subsystem in kern/mmu.c (KVM/MIPS GPA page tables of the loongson-dune
repository).

The page-table code is embedded shallowly.  MIPS uses three paging levels
here (the PUD level is folded: `pgd_none` is identically false,
`pud_offset` returns the top-level slot itself and `PTRS_PER_PUD = 1`),
which is visible in the source because `kvm_pgd_init` fills the top-level
directory with `invalid_pmd_table` sentinels and the walk immediately
treats a top-level slot as a pud.  Accordingly the model is a three-level
radix tree: top directory -> pmd table -> pte table, and the `*_pud`
functions of the source act on a single top-level slot.

Header constants (PTRS_PER_*, PAGE_SHIFT, KVM_NR_MEM_OBJS) come from
kernel headers that are not part of src/; they are modelled as small
representative powers of two.  Every theorem below is independent of the
specific values, which only fix the bit-field geometry of the address
space.
-/

namespace LoongsonDune

/-! ## Geometry constants (kernel headers, modelled) -/

def PAGE_SHIFT : Nat := 12
/-- `2 ^ PAGE_SHIFT`. -/
def PAGE_SIZE : Nat := 4096
def PTRS_PER_PTE : Nat := 4
def PTRS_PER_PMD : Nat := 4
def PTRS_PER_PGD : Nat := 4
def PMD_SHIFT : Nat := 14
/-- `2 ^ PMD_SHIFT = PAGE_SIZE * PTRS_PER_PTE`. -/
def PMD_SIZE : Nat := 16384
def PGDIR_SHIFT : Nat := 16
/-- `2 ^ PGDIR_SHIFT = PMD_SIZE * PTRS_PER_PMD`. -/
def PGDIR_SIZE : Nat := 65536
/-- The 64-bit all-ones value `~0ul`, used as the "rest of this child"
end sentinel by the range operations. -/
def UMAX : Nat := 18446744073709551615

/-- `__pte_offset(addr)`: bit-field slice `(addr >> PAGE_SHIFT) & (PTRS_PER_PTE-1)`,
written with division and remainder (equal for power-of-two sizes). -/
def pteIdx (addr : Nat) : Nat := addr / PAGE_SIZE % PTRS_PER_PTE

/-- `__pmd_offset(addr)`: `(addr >> PMD_SHIFT) & (PTRS_PER_PMD-1)`. -/
def pmdIdx (addr : Nat) : Nat := addr / PMD_SIZE % PTRS_PER_PMD

/-- `pgd_index(addr)`: `(addr >> PGDIR_SHIFT) & (PTRS_PER_PGD-1)`. -/
def pgdIdx (addr : Nat) : Nat := addr / PGDIR_SIZE % PTRS_PER_PGD

/-! ## Page table entries -/

/-- A leaf page-table entry (`pte_t`): the software-visible flag bits plus
the mapped host frame number.  `cca` is the cacheability class. -/
structure Pte where
  present : Bool
  write : Bool
  dirty : Bool
  young : Bool
  pfn : Nat
  cca : Nat
deriving DecidableEq, Repr

/-- `__pte(0)`: the zero entry written by the flush operation. -/
def pte0 : Pte := ⟨false, false, false, false, 0, 0⟩

def pte_mkclean (p : Pte) : Pte := { p with dirty := false }
def pte_mkold (p : Pte) : Pte := { p with young := false }
def pte_mkyoung (p : Pte) : Pte := { p with young := true }
def pte_mkdirty (p : Pte) : Pte := { p with dirty := true }

/-- A middle-level entry (`pmd_t`): the shared invalid sentinel
(`invalid_pte_table`), a huge mapping terminating the tree early, or a
pointer to an owned pte table. -/
inductive PmdEntry where
  | none
  | huge (p : Pte)
  | table (t : Fin PTRS_PER_PTE → Pte)
deriving DecidableEq

/-- `pmd_none`: the slot holds the `invalid_pte_table` sentinel. -/
def pmdNone : PmdEntry → Bool
  | .none => true
  | _ => false

/-- `pmd_present`: `pmd_val != (unsigned long)invalid_pte_table`. -/
def pmdPresent (e : PmdEntry) : Bool := !(pmdNone e)

/-- `pmd_huge`: the `_PAGE_HUGE` bit of the slot value. -/
def pmdHuge : PmdEntry → Bool
  | .huge _ => true
  | _ => false

/-- `pmd_val(a) == pmd_val(b)` as used by the source: huge values compare
by their bits, the sentinel compares equal to itself, and a table pointer
is never equal to a huge value or to the sentinel.  Two distinct table
pointers are never compared in the modelled operations. -/
def pmdValEq : PmdEntry → PmdEntry → Bool
  | .huge p, .huge q => p = q
  | .none, .none => true
  | _, _ => false

/-- `pmd_mkclean` on a huge value: clear the dirty bit. -/
def pmd_mkclean_h (p : Pte) : Pte := pte_mkclean p
/-- `pmd_mkold` on a huge value: clear the young bit. -/
def pmd_mkold_h (p : Pte) : Pte := pte_mkold p

/-- A pmd table node: one mid-level radix node. -/
def PmdTable := Fin PTRS_PER_PMD → PmdEntry

instance : DecidableEq PmdTable :=
  inferInstanceAs (DecidableEq (Fin PTRS_PER_PMD → PmdEntry))

/-- A top-level slot: the `invalid_pmd_table` sentinel (written by
`kvm_pgd_init`) or a pointer to an owned pmd node. -/
inductive PgdEntry where
  | none
  | table (m : PmdTable)
deriving DecidableEq

/-- `pud_none` on a (folded) top-level slot. -/
def pudNone : PgdEntry → Bool
  | .none => true
  | _ => false

def pudPresent (e : PgdEntry) : Bool := !(pudNone e)

/-- The top-level page directory (guest-physical address space root). -/
def Pgd := Fin PTRS_PER_PGD → PgdEntry

instance : DecidableEq Pgd :=
  inferInstanceAs (DecidableEq (Fin PTRS_PER_PGD → PgdEntry))

/-! Nat-indexed access helpers.  All indices produced by the bit-field
slices are in range; the interior remainder merely keeps the functions
total. -/

def finPte (i : Nat) : Fin PTRS_PER_PTE := ⟨i % PTRS_PER_PTE, Nat.mod_lt _ (by decide)⟩
def finPmd (i : Nat) : Fin PTRS_PER_PMD := ⟨i % PTRS_PER_PMD, Nat.mod_lt _ (by decide)⟩
def finPgd (i : Nat) : Fin PTRS_PER_PGD := ⟨i % PTRS_PER_PGD, Nat.mod_lt _ (by decide)⟩

def getPte (t : Fin PTRS_PER_PTE → Pte) (i : Nat) : Pte := t (finPte i)
def setPte (t : Fin PTRS_PER_PTE → Pte) (i : Nat) (v : Pte) : Fin PTRS_PER_PTE → Pte :=
  fun j => if j = finPte i then v else t j
def getPmd (m : PmdTable) (i : Nat) : PmdEntry := m (finPmd i)
def setPmd (m : PmdTable) (i : Nat) (v : PmdEntry) : PmdTable :=
  fun j => if j = finPmd i then v else m j
def getPgd (g : Pgd) (i : Nat) : PgdEntry := g (finPgd i)
def setPgd (g : Pgd) (i : Nat) (v : PgdEntry) : Pgd :=
  fun j => if j = finPgd i then v else g j

/-- A freshly `pmd_init`-ed pmd node: every entry is the invalid
sentinel. -/
def emptyPmdTable : PmdTable := fun _ => .none

/-- A freshly `clear_page`-ed pte node: every entry is `__pte(0)`. -/
def zeroPteTable : Fin PTRS_PER_PTE → Pte := fun _ => pte0

/-- A freshly `kvm_pgd_init`-ed page directory: every top-level slot is
the invalid sentinel. -/
def emptyPgd : Pgd := fun _ => .none

/-! ## Node allocator pool (struct kvm_mmu_memory_cache)

The pool is a bounded list of pre-allocated page-sized blocks; since a
popped block is always reinitialized before use, only the object count
`nobjs` matters to the model.  The host page allocator is modelled by a
supply counter: the number of further pages `__get_free_page` will return
before failing. -/

def KVM_NR_MEM_OBJS : Nat := 4
def KVM_MMU_CACHE_MIN_PAGES : Nat := 2
def ENOMEM : Int := 12

/-- The `while (cache->nobjs < max)` loop of `mmu_topup_memory_cache`,
with fuel `max - nobjs`.  Returns (ret, nobjs, host supply left). -/
def topupLoop : Nat → Nat → Nat → Int × Nat × Nat
  | host, nobjs, 0 => (0, nobjs, host)
  | host, nobjs, fuel + 1 =>
    if host = 0 then (-ENOMEM, nobjs, host)
    else topupLoop (host - 1) (nobjs + 1) fuel

/-- `mmu_topup_memory_cache(cache, min, max)` over a host supply.
Returns (ret, new nobjs, remaining host supply). -/
def mmu_topup_memory_cache (nobjs mn mx host : Nat) : Int × Nat × Nat :=
  if nobjs ≥ mn then (0, nobjs, host)
  else topupLoop host nobjs (mx - nobjs)

/-! ## Index ranges

The per-level loops run `for (i = i_min; i <= i_max; ++i, start = 0)`;
`idxList lo hi` is the list of visited indices.  The loop body for index
`i` sees the original `start` only on the first index and the real end
only on the last one (`end` stays at the `~0ul` sentinel before that). -/

def idxList (lo hi : Nat) : List Nat := (List.range (hi + 1 - lo)).map (lo + ·)

/-! ## kvm_mips_flush_gpa_{pte,pmd,pud,pgd,pt} -/

def flushPteGo : (Fin PTRS_PER_PTE → Pte) → List Nat → Fin PTRS_PER_PTE → Pte
  | t, [] => t
  | t, i :: is => flushPteGo (if (getPte t i).present then setPte t i pte0 else t) is

/-- `kvm_mips_flush_gpa_pte`: zero every present entry in the index range
and report safe-to-remove exactly when the range covered the whole
node. -/
def kvm_mips_flush_gpa_pte (t : Fin PTRS_PER_PTE → Pte) (startGpa endGpa : Nat) :
    (Fin PTRS_PER_PTE → Pte) × Bool :=
  (flushPteGo t (idxList (pteIdx startGpa) (pteIdx endGpa)),
    pteIdx startGpa == 0 && pteIdx endGpa == PTRS_PER_PTE - 1)

def flushPmdGo (lo hi s e : Nat) : PmdTable → Bool → List Nat → PmdTable × Bool
  | m, safe, [] => (m, safe)
  | m, safe, i :: is =>
    match getPmd m i with
    | .none => flushPmdGo lo hi s e m safe is
    | .huge _ => flushPmdGo lo hi s e (setPmd m i .none) safe is
    | .table t =>
      if (kvm_mips_flush_gpa_pte t (if i = lo then s else 0) (if i = hi then e else UMAX)).2
      then flushPmdGo lo hi s e (setPmd m i .none) safe is
      else flushPmdGo lo hi s e
        (setPmd m i (.table
          (kvm_mips_flush_gpa_pte t (if i = lo then s else 0) (if i = hi then e else UMAX)).1))
        false is

/-- `kvm_mips_flush_gpa_pmd`: huge entries in range are cleared in place;
table children are flushed recursively and freed when fully covered. -/
def kvm_mips_flush_gpa_pmd (m : PmdTable) (startGpa endGpa : Nat) : PmdTable × Bool :=
  flushPmdGo (pmdIdx startGpa) (pmdIdx endGpa) startGpa endGpa m
    (pmdIdx startGpa == 0 && pmdIdx endGpa == PTRS_PER_PMD - 1)
    (idxList (pmdIdx startGpa) (pmdIdx endGpa))

/-- `kvm_mips_flush_gpa_pud` on the folded PUD level: a single top slot
(`PTRS_PER_PUD = 1`, index range always the full `[0, 0]`). -/
def kvm_mips_flush_gpa_pud (e : PgdEntry) (startGpa endGpa : Nat) : PgdEntry × Bool :=
  match e with
  | .none => (e, true)
  | .table m =>
    if (kvm_mips_flush_gpa_pmd m startGpa endGpa).2 then (.none, true)
    else (.table (kvm_mips_flush_gpa_pmd m startGpa endGpa).1, false)

def flushPgdGo (lo hi s e : Nat) : Pgd → Bool → List Nat → Pgd × Bool
  | g, safe, [] => (g, safe)
  | g, safe, i :: is =>
    flushPgdGo lo hi s e
      (setPgd g i
        (kvm_mips_flush_gpa_pud (getPgd g i) (if i = lo then s else 0)
          (if i = hi then e else UMAX)).1)
      (safe &&
        (kvm_mips_flush_gpa_pud (getPgd g i) (if i = lo then s else 0)
          (if i = hi then e else UMAX)).2)
      is

def kvm_mips_flush_gpa_pgd (g : Pgd) (startGpa endGpa : Nat) : Pgd × Bool :=
  flushPgdGo (pgdIdx startGpa) (pgdIdx endGpa) startGpa endGpa g
    (pgdIdx startGpa == 0 && pgdIdx endGpa == PTRS_PER_PGD - 1)
    (idxList (pgdIdx startGpa) (pgdIdx endGpa))

/-- `kvm_mips_flush_gpa_pt(kvm, start_gfn, end_gfn)`: flush the GPA
mappings of the inclusive frame range.  Returns whether the whole
directory became removable. -/
def kvm_mips_flush_gpa_pt (g : Pgd) (startGfn endGfn : Nat) : Pgd × Bool :=
  kvm_mips_flush_gpa_pgd g (startGfn * PAGE_SIZE) (endGfn * PAGE_SIZE)

/-! ## BUILD_PTE_RANGE_OP(name, op, op1)

One generic traversal, instantiated with (`pte_mkclean`, `pmd_mkclean`)
and (`pte_mkold`, `pmd_mkold`) exactly as the preprocessor does.  Note
that the huge branch of the pmd level updates the entry but does not set
`ret`, faithfully to the source. -/

def rangePteGo (f : Pte → Pte) :
    (Fin PTRS_PER_PTE → Pte) → Bool → List Nat → (Fin PTRS_PER_PTE → Pte) × Bool
  | t, ret, [] => (t, ret)
  | t, ret, i :: is =>
    let old := getPte t i
    if old.present then
      if f old = old then rangePteGo f t ret is
      else rangePteGo f (setPte t i (f old)) true is
    else rangePteGo f t ret is

def rangeOpPte (f : Pte → Pte) (t : Fin PTRS_PER_PTE → Pte) (s e : Nat) :
    (Fin PTRS_PER_PTE → Pte) × Bool :=
  rangePteGo f t false (idxList (pteIdx s) (pteIdx e))

def rangePmdGo (f g : Pte → Pte) (lo hi s e : Nat) :
    PmdTable → Bool → List Nat → PmdTable × Bool
  | m, ret, [] => (m, ret)
  | m, ret, i :: is =>
    match getPmd m i with
    | .none => rangePmdGo f g lo hi s e m ret is
    | .huge p =>
      if g p = p then rangePmdGo f g lo hi s e m ret is
      else rangePmdGo f g lo hi s e (setPmd m i (.huge (g p))) ret is
    | .table t =>
      rangePmdGo f g lo hi s e
        (setPmd m i (.table
          (rangeOpPte f t (if i = lo then s else 0) (if i = hi then e else UMAX)).1))
        (ret || (rangeOpPte f t (if i = lo then s else 0) (if i = hi then e else UMAX)).2)
        is

def rangeOpPmd (f g : Pte → Pte) (m : PmdTable) (s e : Nat) : PmdTable × Bool :=
  rangePmdGo f g (pmdIdx s) (pmdIdx e) s e m false (idxList (pmdIdx s) (pmdIdx e))

/-- The folded PUD level of the range operation: one top slot. -/
def rangeOpPud (f g : Pte → Pte) (e : PgdEntry) (s t : Nat) : PgdEntry × Bool :=
  match e with
  | .none => (e, false)
  | .table m => (.table (rangeOpPmd f g m s t).1, (rangeOpPmd f g m s t).2)

def rangePgdGo (f g : Pte → Pte) (lo hi s e : Nat) :
    Pgd → Bool → List Nat → Pgd × Bool
  | pg, ret, [] => (pg, ret)
  | pg, ret, i :: is =>
    rangePgdGo f g lo hi s e
      (setPgd pg i
        (rangeOpPud f g (getPgd pg i) (if i = lo then s else 0)
          (if i = hi then e else UMAX)).1)
      (ret ||
        (rangeOpPud f g (getPgd pg i) (if i = lo then s else 0)
          (if i = hi then e else UMAX)).2)
      is

def rangeOpPgd (f g : Pte → Pte) (pg : Pgd) (s e : Nat) : Pgd × Bool :=
  rangePgdGo f g (pgdIdx s) (pgdIdx e) s e pg false (idxList (pgdIdx s) (pgdIdx e))

/-- `kvm_mips_mkclean_gpa_pt(kvm, start_gfn, end_gfn)`: clear the dirty
flag over the inclusive frame range; returns whether any entry was
modified. -/
def kvm_mips_mkclean_gpa_pt (g : Pgd) (startGfn endGfn : Nat) : Pgd × Bool :=
  rangeOpPgd pte_mkclean pmd_mkclean_h g (startGfn * PAGE_SIZE) (endGfn * PAGE_SIZE)

/-- `kvm_mips_mkold_gpa_pt(kvm, start_gfn, end_gfn)`: clear the young
flag over the inclusive frame range. -/
def kvm_mips_mkold_gpa_pt (g : Pgd) (startGfn endGfn : Nat) : Pgd × Bool :=
  rangeOpPgd pte_mkold pmd_mkold_h g (startGfn * PAGE_SIZE) (endGfn * PAGE_SIZE)

/-! ## kvm_mips_walk_pgd

The walk returns a pointer to the governing entry: a leaf pte slot, or
the middle-level slot itself when it holds a huge mapping.  In the model
the pointer is represented by the walk outcome; the slot position is
recoverable from the address (`pgdIdx`/`pmdIdx`/`pteIdx`), which is how
the read/write helpers below dereference it. -/

inductive WalkRes where
  | notFound
  | huge
  | pte
deriving DecidableEq, Repr

/-- The second half of the walk, entered once the top slot holds the pmd
node `m`: the `pmd_huge`, `pmd_none` and `pte_offset` steps of
`kvm_mips_walk_pgd`. -/
def walkPmdLevel (g : Pgd) (m : PmdTable) (cache : Option Nat) (addr : Nat) :
    Option (Pgd × Option Nat × WalkRes) :=
  match getPmd m (pmdIdx addr), cache with
  | .huge _, c => some (g, c, .huge)
  | .none, none => some (g, none, .notFound)
  | .none, some n =>
    if n = 0 then none
    else some (setPgd g (pgdIdx addr)
      (.table (setPmd m (pmdIdx addr) (.table zeroPteTable))), some (n - 1), .pte)
  | .table _, c => some (g, c, .pte)

/-- `kvm_mips_walk_pgd(pgd, cache, addr)`.  `cache` is the allocator pool
object count (`Option.none` models a NULL cache).  The outer `Option` is
`none` only for the `BUG_ON` of `mmu_memory_cache_alloc` popping an empty
pool; callers reserve `KVM_MMU_CACHE_MIN_PAGES = 2` first.  On the folded
MIPS configuration `pgd_none` is identically false, so the top-level
`BUG()` branch of the source is unreachable and the first test is
`pud_none` on the top slot; on a miss there the fresh `pmd_init`-ed node
(every entry the invalid sentinel) is linked by `pud_populate`. -/
def kvm_mips_walk_pgd (g : Pgd) (cache : Option Nat) (addr : Nat) :
    Option (Pgd × Option Nat × WalkRes) :=
  match getPgd g (pgdIdx addr), cache with
  | .none, none => some (g, none, .notFound)
  | .none, some n =>
    if n = 0 then none
    else walkPmdLevel (setPgd g (pgdIdx addr) (.table emptyPmdTable)) emptyPmdTable
      (some (n - 1)) addr
  | .table m, c => walkPmdLevel g m c addr

/-- Dereference the pointer returned by a NULL-cache walk
(`kvm_mips_pte_for_gpa(kvm, NULL, gpa)` followed by `*ptep`): the entry
value at the walk position, `Option.none` when the walk returns NULL.
For a huge middle-level slot this reads the slot bits as a pte, exactly
as the fast path does through its pointer cast. -/
def readForGpa (g : Pgd) (addr : Nat) : Option Pte :=
  match getPgd g (pgdIdx addr) with
  | .none => none
  | .table m =>
    match getPmd m (pmdIdx addr) with
    | .none => none
    | .huge p => some p
    | .table t => some (getPte t (pteIdx addr))

/-- Whether the NULL-cache walk lands on a huge middle-level slot. -/
def walkIsHuge (g : Pgd) (addr : Nat) : Bool :=
  match getPgd g (pgdIdx addr) with
  | .none => false
  | .table m => pmdHuge (getPmd m (pmdIdx addr))

/-- `set_pte(ptep, v)` through the pointer returned by the walk.  For a
pte slot this writes the leaf entry; for a huge middle-level slot the
store lands on the slot itself (the fast path only ever stores values
derived from that same slot there, so the `_PAGE_HUGE` bit is preserved
and the slot stays huge). -/
def writeAtWalk (g : Pgd) (addr : Nat) (v : Pte) : Pgd :=
  match getPgd g (pgdIdx addr) with
  | .none => g
  | .table m =>
    match getPmd m (pmdIdx addr) with
    | .none => g
    | .huge _ => setPgd g (pgdIdx addr) (.table (setPmd m (pmdIdx addr) (.huge v)))
    | .table t =>
      setPgd g (pgdIdx addr)
        (.table (setPmd m (pmdIdx addr) (.table (setPte t (pteIdx addr) v))))

/-- The present mapping a pmd node provides for an address under it
(used level-wise by the range-operation theorems). -/
def pmdLookup (m : PmdTable) (gpa : Nat) : Option Pte :=
  match getPmd m (pmdIdx gpa) with
  | .none => none
  | .huge p => if p.present then some p else none
  | .table t => if (getPte t (pteIdx gpa)).present then some (getPte t (pteIdx gpa)) else none

/-- The present mapping governing `gfn`, if any: the walk outcome with
non-present leaves filtered out.  This is the observable content of the
GPA page table used by the range-operation theorems. -/
def lookupMapping (g : Pgd) (gfn : Nat) : Option Pte :=
  match getPgd g (pgdIdx (gfn * PAGE_SIZE)) with
  | .none => none
  | .table m => pmdLookup m (gfn * PAGE_SIZE)

/-- The present mapping a (folded) top-level slot provides for an
address under it: the per-slot restriction of `lookupMapping`. -/
def pudLookup (e : PgdEntry) (gpa : Nat) : Option Pte :=
  match e with
  | .none => none
  | .table m => pmdLookup m gpa

/-! ## _kvm_mips_map_page_fast

Fast path GPA fault handling (young and dirty tracking).  External frame
bookkeeping (`kvm_set_pfn_accessed`, `kvm_set_pfn_dirty`,
`mark_page_dirty`) touches host state outside the GPA table and is not
part of the model. -/

/-- `_kvm_mips_map_page_fast(vcpu, gpa, write_fault, &out, ...)`:
returns the updated table and `some out_entry` on success, `none` for
the `-EFAULT` exits (absent mapping, or write to a clean read-only
entry). -/
def _kvm_mips_map_page_fast (g : Pgd) (gpa : Nat) (writeFault : Bool) :
    Pgd × Option Pte :=
  match readForGpa g gpa with
  | none => (g, none)
  | some p0 =>
    if !p0.present then (g, none)
    else
      let p1 := if !p0.young then pte_mkyoung p0 else p0
      let g1 := if !p0.young then writeAtWalk g gpa p1 else g
      if writeFault && !p1.dirty then
        if !p1.write then (g1, none)
        else (writeAtWalk g1 gpa (pte_mkdirty p1), some (pte_mkdirty p1))
      else (g1, some p1)

/-! ## Memory slots and the hva range dispatcher -/

/-- A memory slot: guest frame range `[base_gfn, base_gfn + npages)`
backed by host virtual addresses starting at `userspace_addr`. -/
structure Memslot where
  base_gfn : Nat
  npages : Nat
  userspace_addr : Nat
deriving DecidableEq, Repr

/-- `hva_to_gfn_memslot(hva, slot)`. -/
def hva_to_gfn_memslot (hva : Nat) (slot : Memslot) : Nat :=
  slot.base_gfn + (hva - slot.userspace_addr) / PAGE_SIZE

/-- `handle_hva_to_gpa(kvm, start, end, handler, data)`: intersect
`[start, end)` with each slot's hva range, skip empty intersections, and
OR the handler results over the guest frame ranges. -/
def handle_hva_to_gpa (g : Pgd) (slots : List Memslot) (start stop : Nat)
    (handler : Pgd → Nat → Nat → Memslot → Pgd × Bool) : Pgd × Bool :=
  match slots with
  | [] => (g, false)
  | slot :: rest =>
    let hvaStart := max start slot.userspace_addr
    let hvaEnd := min stop (slot.userspace_addr + slot.npages * PAGE_SIZE)
    if hvaStart ≥ hvaEnd then handle_hva_to_gpa g rest start stop handler
    else
      let gfn := hva_to_gfn_memslot hvaStart slot
      let gfnEnd := hva_to_gfn_memslot (hvaEnd + PAGE_SIZE - 1) slot
      let r := handler g gfn gfnEnd slot
      let r2 := handle_hva_to_gpa r.1 rest start stop handler
      (r2.1, r.2 || r2.2)

/-- `kvm_test_age_hva_handler`: read the young flag of the governing
entry, false when the walk returns NULL. -/
def kvm_test_age_hva_handler (g : Pgd) (gfn : Nat) (_gfnEnd : Nat) (_slot : Memslot) :
    Pgd × Bool :=
  match readForGpa g (gfn * PAGE_SIZE) with
  | none => (g, false)
  | some p => (g, p.young)

/-- `kvm_age_hva_handler`. -/
def kvm_age_hva_handler (g : Pgd) (gfn gfnEnd : Nat) (_slot : Memslot) : Pgd × Bool :=
  kvm_mips_mkold_gpa_pt g gfn gfnEnd

/-- `kvm_age_hva(kvm, start, end)`. -/
def kvm_age_hva (g : Pgd) (slots : List Memslot) (start stop : Nat) : Pgd × Bool :=
  handle_hva_to_gpa g slots start stop kvm_age_hva_handler

/-- `kvm_test_age_hva(kvm, hva)`: note the source passes `hva` as both
range bounds. -/
def kvm_test_age_hva (g : Pgd) (slots : List Memslot) (hva : Nat) : Pgd × Bool :=
  handle_hva_to_gpa g slots hva hva kvm_test_age_hva_handler

/-! ## kvm_mips_set_pmd_huge -/

/-- `kvm_mips_get_pmd(kvm, cache, addr)`: materialize the pmd node under
the top slot (`pud_huge` is identically false here).  `none` models the
NULL return (missing node and no cache) and the allocator `BUG_ON`. -/
def kvm_mips_get_pmd (g : Pgd) (cache : Option Nat) (addr : Nat) :
    Option (Pgd × Option Nat) :=
  match getPgd g (pgdIdx addr), cache with
  | .none, none => none
  | .none, some n =>
    if n = 0 then none
    else some (setPgd g (pgdIdx addr) (.table emptyPmdTable), some (n - 1))
  | .table _, c => some (g, c)

/-- The middle-level slot governing `addr` (defined once the pmd node
exists; the sentinel otherwise). -/
def pmdSlot (g : Pgd) (addr : Nat) : PmdEntry :=
  match getPgd g (pgdIdx addr) with
  | .none => .none
  | .table m => getPmd m (pmdIdx addr)

/-- Store a value into the middle-level slot governing `addr`. -/
def setPmdSlot (g : Pgd) (addr : Nat) (v : PmdEntry) : Pgd :=
  match getPgd g (pgdIdx addr) with
  | .none => g
  | .table m => setPgd g (pgdIdx addr) (.table (setPmd m (pmdIdx addr) v))

/-- Observable side effects of `kvm_mips_set_pmd_huge`: the range unmap
of a stale pte-level mapping, `pmd_clear`, `kvm_vz_host_tlb_inv`, and the
final `set_pmd`. -/
inductive MmuEv where
  | flush (startGfn endGfn : Nat)
  | clearSlot
  | tlbInv (addr : Nat)
  | setSlot
deriving DecidableEq, Repr

/-- The `retry:` loop body of `kvm_mips_set_pmd_huge`, with fuel for the
`goto retry` back edge (two iterations always suffice, because the flush
of the full PMD block clears the slot).  Besides the return value the
model carries the event trace and the number of `goto retry` jumps
taken. -/
def setPmdHugeGo :
    Nat → Pgd → Option Nat → Nat → Pte → List MmuEv → Nat →
    Option (Int × Pgd × Option Nat × List MmuEv × Nat)
  | 0, _, _, _, _, _, _ => none
  | fuel + 1, g, cache, addr, newp, tr, retries =>
    match kvm_mips_get_pmd g cache addr with
    | none => none
    | some (g1, c1) =>
      if pmdValEq (pmdSlot g1 addr) (.huge newp) then some (0, g1, c1, tr, retries)
      else
        if pmdPresent (pmdSlot g1 addr) && !pmdHuge (pmdSlot g1 addr) then
          setPmdHugeGo fuel
            (kvm_mips_flush_gpa_pt g1 (addr / PMD_SIZE * PMD_SIZE / PAGE_SIZE)
              ((addr / PMD_SIZE * PMD_SIZE + (PMD_SIZE - 1)) / PAGE_SIZE)).1
            c1 addr newp
            (tr ++ [.flush (addr / PMD_SIZE * PMD_SIZE / PAGE_SIZE)
              ((addr / PMD_SIZE * PMD_SIZE + (PMD_SIZE - 1)) / PAGE_SIZE)])
            (retries + 1)
        else
          some (0,
            setPmdSlot (if pmdPresent (pmdSlot g1 addr) then setPmdSlot g1 addr .none else g1)
              addr (.huge newp), c1,
            (if pmdPresent (pmdSlot g1 addr) then tr ++ [MmuEv.clearSlot] else tr) ++
              [MmuEv.tlbInv (addr / PMD_SIZE * PMD_SIZE), MmuEv.setSlot], retries)

/-- `kvm_mips_set_pmd_huge(vcpu, cache, addr, &new_pmd)`.  When the
present slot already holds a huge value the source additionally emits
`WARN_ON_ONCE(pmd_pfn(old) != pmd_pfn(new))` before clearing it. -/
def kvm_mips_set_pmd_huge (g : Pgd) (cache : Option Nat) (addr : Nat) (newp : Pte) :
    Option (Int × Pgd × Option Nat × List MmuEv × Nat) :=
  setPmdHugeGo 2 g cache addr newp [] 0

/-! ## fault_supports_huge_mapping and the granularity decision -/

/-- `x & ~(map_size - 1)` for a power-of-two size, written with division
and remainder. -/
def alignDown (x m : Nat) : Nat := x - x % m

/-- `fault_supports_huge_mapping(memslot, hva, map_size)`. -/
def fault_supports_huge_mapping (slot : Memslot) (hva mapSize : Nat) : Bool :=
  let size := slot.npages * PAGE_SIZE
  let gpaS := slot.base_gfn * PAGE_SIZE
  let uaddrS := slot.userspace_addr
  let uaddrE := uaddrS + size
  (gpaS % mapSize == uaddrS % mapSize) &&
    (decide (alignDown hva mapSize ≥ uaddrS)) &&
    (decide (alignDown hva mapSize + mapSize ≤ uaddrE))

/-- The mapping-granularity decision of `kvm_mips_map_page`: lines
1022-1027 (force the base size unless the slot supports a huge mapping
of the vma page size) and lines 1080-1093 (upgrade a base-size fault to
`PMD_SIZE` when the slot supports it there and
`transparent_hugepage_adjust` succeeds, modelled by `thp`).  Returns
(`vma_pagesize`, `force_pte`). -/
def decideMapSize (slot : Memslot) (hva vmaPagesize : Nat) (thp : Bool) : Nat × Bool :=
  let r :=
    if !fault_supports_huge_mapping slot hva vmaPagesize then (PAGE_SIZE, true)
    else (vmaPagesize, false)
  if r.1 == PAGE_SIZE && !r.2 then
    if fault_supports_huge_mapping slot hva PMD_SIZE && thp then (PMD_SIZE, r.2) else r
  else r

/-! ## kvm_mips_map_page, slow path

The slow path after a fast-path miss.  External collaborators appear as
inputs: `hvaOk`/`hva`/`writable` from the memory-slot translator,
`vmaPagesize` from the host vma, `thp` for a successful
`transparent_hugepage_adjust`, and `pfnOk`/`pfn`/`writeable` from
`gfn_to_pfn_prot`.  The invalidation-sequence retry loop re-runs exactly
this resolution, so a single pass is modelled.  The result is `none`
only for the unreachable allocator `BUG_ON` paths and for the store
through a pointer that reinterprets a huge slot as a pte table entry —
the fragile corner called out in the design notes, excluded by
hypothesis in the theorems. -/

def pageCachableDefault : Nat := 3

def EFAULT : Int := 14

def kvm_mips_map_page_slow (g : Pgd) (cache host : Nat) (gpa : Nat) (writeFault : Bool)
    (slot : Memslot) (hvaOk : Bool) (hva : Nat) (writable : Bool)
    (vmaPagesize : Nat) (thp : Bool) (pfnOk : Bool) (pfn : Nat) (writeable : Bool) :
    Option (Int × Pgd × Nat × Nat × Option Pte) :=
  if !hvaOk || (writeFault && !writable) then some (-EFAULT, g, cache, host, none)
  else
    let d := decideMapSize slot hva vmaPagesize thp
    let t := mmu_topup_memory_cache cache KVM_MMU_CACHE_MIN_PAGES KVM_NR_MEM_OBJS host
    if t.1 ≠ 0 then some (t.1, g, t.2.1, t.2.2, none)
    else if !pfnOk then some (-EFAULT, g, t.2.1, t.2.2, none)
    else
      if d.1 = PMD_SIZE then
        match kvm_mips_set_pmd_huge g (some t.2.1) gpa
          ⟨true, writeable, writeable && writeFault, true, pfn, pageCachableDefault⟩ with
        | none => none
        | some (_, g2, c2, _, _) =>
          some (0, g2, c2.getD 0, t.2.2, none)
      else
        match kvm_mips_walk_pgd g (some t.2.1) gpa with
        | none => none
        | some (g1, c1, .pte) =>
          some (0, writeAtWalk g1 gpa
            ⟨true, writeable, writeable && writeFault, true, pfn, pageCachableDefault⟩,
            c1.getD 0, t.2.2,
            some ⟨true, writeable, writeable && writeFault, true, pfn, pageCachableDefault⟩)
        | some (_, _, _) => none

/-! ## dune_hva_to_gpa / dune_gpa_to_hva

`GPA_STACK_SIZE`, `GPA_MAP_SIZE` and `LG_ALIGN` come from headers that
are not part of src/, so the region sizes are parameters and the two
`LG_ALIGN`-ed process addresses are carried as fields.  `get_pabit` is
taken from the source as it stands: it returns 1, so `phys_end = 2`.
All arithmetic is 64-bit unsigned, modelled modulo `2^64`. -/

/-- `2 ^ 64`, written as a literal. -/
def W64 : Nat := 18446744073709551616

/-- 64-bit unsigned subtraction `a - b` for operands below `2^64`. -/
def usub (a b : Nat) : Nat := (W64 + a - b) % W64

def ADDR_INVAL : Nat := W64 - 1

/-- `get_pabit()`: the TODO stub in the source returns 1. -/
def get_pabit : Nat := 1

structure GpaLayout where
  gpaStackSize : Nat
  gpaMapSize : Nat
deriving DecidableEq, Repr

/-- The `LG_ALIGN`-ed `mmap_base` and `start_stack` of an `mm_struct`. -/
structure MmStruct where
  lgMmapBase : Nat
  lgStartStack : Nat
deriving DecidableEq, Repr

def dune_hva_to_gpa (L : GpaLayout) (mm : MmStruct) (hva : Nat) : Nat :=
  let physEnd := 2 ^ get_pabit
  let mmapStart := usub mm.lgMmapBase L.gpaMapSize
  let stackStart := usub mm.lgStartStack L.gpaStackSize
  if hva ≥ stackStart then
    if usub hva stackStart ≥ L.gpaStackSize then ADDR_INVAL
    else usub ((usub hva stackStart + physEnd) % W64) L.gpaStackSize
  else if hva ≥ mmapStart then
    if usub hva mmapStart ≥ L.gpaMapSize then ADDR_INVAL
    else usub (usub ((usub hva mmapStart + physEnd) % W64) L.gpaStackSize) L.gpaMapSize
  else
    if hva ≥ usub (usub physEnd L.gpaStackSize) L.gpaMapSize then ADDR_INVAL
    else hva

def dune_gpa_to_hva (L : GpaLayout) (mm : MmStruct) (gpa : Nat) : Nat :=
  let physEnd := 2 ^ get_pabit
  if gpa < usub (usub physEnd L.gpaStackSize) L.gpaMapSize then gpa
  else if gpa < usub physEnd L.gpaStackSize then
    usub ((usub gpa (usub (usub physEnd L.gpaStackSize) L.gpaMapSize) + mm.lgMmapBase) % W64)
      L.gpaMapSize
  else if gpa < physEnd then
    usub ((usub gpa (usub physEnd L.gpaStackSize) + mm.lgStartStack) % W64) L.gpaStackSize
  else ADDR_INVAL

/-! ## Concrete fixtures for witnesses and counterexamples -/

/-- A directory whose only mapping is the leaf entry `p` at frame 0. -/
def onePtePgd (p : Pte) : Pgd :=
  setPgd emptyPgd 0 (.table (setPmd emptyPmdTable 0 (.table (setPte zeroPteTable 0 p))))

/-- A directory whose only mapping is a huge entry `p` over frames 0-3. -/
def oneHugePgd (p : Pte) : Pgd :=
  setPgd emptyPgd 0 (.table (setPmd emptyPmdTable 0 (.huge p)))

/-- Present, writable, clean, young leaf entry. -/
def cleanPte : Pte := ⟨true, true, false, true, 7, 3⟩

/-- Present, writable, dirty, young entry. -/
def dirtyPte : Pte := ⟨true, true, true, true, 7, 3⟩

/-- Present, read-only, clean, young entry. -/
def roPte : Pte := ⟨true, false, false, true, 7, 3⟩

/-- Present, writable, clean, old (not young) entry. -/
def agedPte : Pte := ⟨true, true, false, false, 7, 3⟩

/-- Present, writable, dirty, young entry over a different host frame. -/
def otherPfnPte : Pte := ⟨true, true, true, true, 9, 3⟩

/-! # Theorems -/

/-! ## Table access lemmas -/

theorem getPgd_setPgd_self (g : Pgd) (i : Nat) (v : PgdEntry) :
    getPgd (setPgd g i v) i = v := by
  simp [getPgd, setPgd]

theorem getPgd_setPgd_other (g : Pgd) (i j : Nat) (v : PgdEntry)
    (hi : i < PTRS_PER_PGD) (hj : j < PTRS_PER_PGD) (hij : i ≠ j) :
    getPgd (setPgd g i v) j = getPgd g j := by
  have : finPgd j ≠ finPgd i := by
    intro h
    apply hij
    have := congrArg Fin.val h
    simpa [finPgd, Nat.mod_eq_of_lt hi, Nat.mod_eq_of_lt hj] using this.symm
  simp [getPgd, setPgd, this]

theorem setPgd_setPgd_self (g : Pgd) (i : Nat) (a b : PgdEntry) :
    setPgd (setPgd g i a) i b = setPgd g i b := by
  funext j
  simp only [setPgd]
  split <;> rfl

theorem getPmd_setPmd_self (m : PmdTable) (i : Nat) (v : PmdEntry) :
    getPmd (setPmd m i v) i = v := by
  simp [getPmd, setPmd]

theorem getPmd_setPmd_other (m : PmdTable) (i j : Nat) (v : PmdEntry)
    (hi : i < PTRS_PER_PMD) (hj : j < PTRS_PER_PMD) (hij : i ≠ j) :
    getPmd (setPmd m i v) j = getPmd m j := by
  have : finPmd j ≠ finPmd i := by
    intro h
    apply hij
    have := congrArg Fin.val h
    simpa [finPmd, Nat.mod_eq_of_lt hi, Nat.mod_eq_of_lt hj] using this.symm
  simp [getPmd, setPmd, this]

theorem setPmd_setPmd_self (m : PmdTable) (i : Nat) (a b : PmdEntry) :
    setPmd (setPmd m i a) i b = setPmd m i b := by
  funext j
  simp only [setPmd]
  split <;> rfl

theorem getPte_setPte_self (t : Fin PTRS_PER_PTE → Pte) (i : Nat) (v : Pte) :
    getPte (setPte t i v) i = v := by
  simp [getPte, setPte]

theorem getPte_setPte_other (t : Fin PTRS_PER_PTE → Pte) (i j : Nat) (v : Pte)
    (hi : i < PTRS_PER_PTE) (hj : j < PTRS_PER_PTE) (hij : i ≠ j) :
    getPte (setPte t i v) j = getPte t j := by
  have : finPte j ≠ finPte i := by
    intro h
    apply hij
    have := congrArg Fin.val h
    simpa [finPte, Nat.mod_eq_of_lt hi, Nat.mod_eq_of_lt hj] using this.symm
  simp [getPte, setPte, this]

theorem setPte_setPte_self (t : Fin PTRS_PER_PTE → Pte) (i : Nat) (a b : Pte) :
    setPte (setPte t i a) i b = setPte t i b := by
  funext j
  simp only [setPte]
  split <;> rfl

theorem pteIdx_lt (addr : Nat) : pteIdx addr < PTRS_PER_PTE :=
  Nat.mod_lt _ (by decide)

theorem pmdIdx_lt (addr : Nat) : pmdIdx addr < PTRS_PER_PMD :=
  Nat.mod_lt _ (by decide)

theorem pgdIdx_lt (addr : Nat) : pgdIdx addr < PTRS_PER_PGD :=
  Nat.mod_lt _ (by decide)

/-! ## Walk characterization lemmas -/

theorem walk_nocache_eq (g : Pgd) (addr : Nat) :
    kvm_mips_walk_pgd g none addr = some (g, none,
      if pmdSlot g addr = .none then .notFound
      else if pmdHuge (pmdSlot g addr) then .huge else .pte) := by
  cases hg : getPgd g (pgdIdx addr) with
  | none => simp [kvm_mips_walk_pgd, walkPmdLevel, pmdSlot, hg]
  | table m =>
    cases hm : getPmd m (pmdIdx addr) <;>
      simp [kvm_mips_walk_pgd, walkPmdLevel, pmdSlot, hg, hm, pmdHuge]

theorem walk_cache_huge (g : Pgd) (addr : Nat) (c : Option Nat) (m : PmdTable) (p : Pte)
    (hg : getPgd g (pgdIdx addr) = .table m)
    (hm : getPmd m (pmdIdx addr) = .huge p) :
    kvm_mips_walk_pgd g c addr = some (g, c, .huge) := by
  cases c <;> simp [kvm_mips_walk_pgd, walkPmdLevel, hg, hm]

theorem walk_cache_pte (g : Pgd) (addr : Nat) (c : Option Nat) (m : PmdTable)
    (t : Fin PTRS_PER_PTE → Pte)
    (hg : getPgd g (pgdIdx addr) = .table m)
    (hm : getPmd m (pmdIdx addr) = .table t) :
    kvm_mips_walk_pgd g c addr = some (g, c, .pte) := by
  cases c <;> simp [kvm_mips_walk_pgd, walkPmdLevel, hg, hm]

theorem walk_cache_top_none (g : Pgd) (addr : Nat) (n : Nat)
    (hg : getPgd g (pgdIdx addr) = .none) (hn : 2 ≤ n) :
    kvm_mips_walk_pgd g (some n) addr =
      some (setPgd g (pgdIdx addr)
        (.table (setPmd emptyPmdTable (pmdIdx addr) (.table zeroPteTable))),
        some (n - 2), .pte) := by
  have h0 : ¬(n = 0) := by omega
  have h1 : ¬(n - 1 = 0) := by omega
  have hempty : getPmd emptyPmdTable (pmdIdx addr) = .none := rfl
  have hsub : n - 1 - 1 = n - 2 := by omega
  simp [kvm_mips_walk_pgd, walkPmdLevel, hg, h0, h1, hempty, hsub, setPgd_setPgd_self]

theorem walk_cache_pmd_none (g : Pgd) (addr : Nat) (n : Nat) (m : PmdTable)
    (hg : getPgd g (pgdIdx addr) = .table m)
    (hm : getPmd m (pmdIdx addr) = .none) (hn : 1 ≤ n) :
    kvm_mips_walk_pgd g (some n) addr =
      some (setPgd g (pgdIdx addr)
        (.table (setPmd m (pmdIdx addr) (.table zeroPteTable))),
        some (n - 1), .pte) := by
  have h0 : ¬(n = 0) := by omega
  simp [kvm_mips_walk_pgd, walkPmdLevel, hg, hm, h0]

/-! ## C6: the node allocator reserve contract -/

theorem topupLoop_closed :
    ∀ fuel host nobjs, topupLoop host nobjs fuel =
      if fuel ≤ host then (0, nobjs + fuel, host - fuel)
      else (-ENOMEM, nobjs + host, 0) := by
  intro fuel
  induction fuel with
  | zero => intro host nobjs; simp [topupLoop]
  | succ f ih =>
    intro host nobjs
    rcases host with _ | h
    · simp [topupLoop]
    · rw [show topupLoop (h + 1) nobjs (f + 1) = topupLoop h (nobjs + 1) f from by
        simp [topupLoop]]
      rw [ih]
      by_cases h1 : f ≤ h
      · rw [if_pos h1, if_pos (by omega)]
        simp only [Prod.mk.injEq]
        exact ⟨trivial, by omega, by omega⟩
      · rw [if_neg h1, if_neg (by omega)]
        simp only [Prod.mk.injEq]
        exact ⟨trivial, by omega, trivial⟩

/-- C6 (amended): `reserve(min, max)` succeeds leaving at least `min`
nodes; on success it either found the pool already at `min` (and left it
untouched) or filled it to `max`; and it fails with `-ENOMEM` exactly
when the pool starts below `min` and the host cannot supply enough pages
to fill it to `max` (even if `min` itself was reached on the way). -/
theorem c6_topup_reserve (nobjs mn mx host : Nat) (hmm : mn ≤ mx)
    (hcap : mx ≤ KVM_NR_MEM_OBJS) :
    ((mmu_topup_memory_cache nobjs mn mx host).1 = 0 →
      mn ≤ (mmu_topup_memory_cache nobjs mn mx host).2.1) ∧
    ((mmu_topup_memory_cache nobjs mn mx host).1 = 0 →
      (mn ≤ nobjs ∧ mmu_topup_memory_cache nobjs mn mx host = (0, nobjs, host)) ∨
        (mmu_topup_memory_cache nobjs mn mx host).2.1 = mx) ∧
    ((mmu_topup_memory_cache nobjs mn mx host).1 = -ENOMEM ↔
      nobjs < mn ∧ nobjs + host < mx) ∧
    ((mmu_topup_memory_cache nobjs mn mx host).1 = 0 ∨
      (mmu_topup_memory_cache nobjs mn mx host).1 = -ENOMEM) := by
  have key : mmu_topup_memory_cache nobjs mn mx host =
      if mn ≤ nobjs then (0, nobjs, host)
      else if mx - nobjs ≤ host then (0, nobjs + (mx - nobjs), host - (mx - nobjs))
      else (-ENOMEM, nobjs + host, 0) := by
    unfold mmu_topup_memory_cache
    by_cases hge : mn ≤ nobjs
    · simp [hge]
    · simp [hge, topupLoop_closed]
  rw [key]
  split_ifs with h1 h2
  · refine ⟨fun _ => h1, fun _ => Or.inl ⟨h1, rfl⟩, ?_, Or.inl rfl⟩
    constructor
    · intro h; simp [ENOMEM] at h
    · intro h; omega
  · refine ⟨fun _ => by show mn ≤ nobjs + (mx - nobjs); omega,
      fun _ => Or.inr (by show nobjs + (mx - nobjs) = mx; omega), ?_, Or.inl rfl⟩
    constructor
    · intro h; simp [ENOMEM] at h
    · intro h; exact absurd h.2 (by omega)
  · refine ⟨?_, ?_, ⟨fun _ => ⟨by omega, by omega⟩, fun _ => rfl⟩, Or.inr rfl⟩
    · intro h; simp [ENOMEM] at h
    · intro h; simp [ENOMEM] at h

/-- Witness for C6 at `nobjs = 0, min = 2, max = 4, host = 10`. -/
theorem c6_topup_reserve_witness :
    2 ≤ 4 ∧ 4 ≤ KVM_NR_MEM_OBJS ∧
      ((mmu_topup_memory_cache 0 2 4 10).1 = -ENOMEM ↔ 0 < 2 ∧ 0 + 10 < 4) :=
  ⟨by decide, by decide, (c6_topup_reserve 0 2 4 10 (by decide) (by decide)).2.2.1⟩

/-- Counterexample for C6 as stated: with an empty pool, `min = 1`,
`max = 3` and a host able to supply only 2 pages, the call fails with
`-ENOMEM` although the host supplied a page before `min` was reached
(`min` was in fact reached); and with the pool already holding
`min = 1 < max = 3` objects and a plentiful host, the call returns
success without topping the pool up to `max`. -/
theorem c6_topup_counterexample :
    mmu_topup_memory_cache 0 1 3 2 = (-ENOMEM, 2, 0) ∧ ¬(0 + 2 < 1) ∧
      mmu_topup_memory_cache 1 1 3 10 = (0, 1, 10) ∧ (1 : Nat) ≠ 3 := by decide

/-! ## C10: hva to gpa round trip -/

/-- Counterexample for C10 as stated: with stack and map regions of one
page each (any realistic size exceeds `phys_end`, since the source stub
`get_pabit()` returns 1 and hence `phys_end = 2`), the top stack page
translates to gpa 1, which translates back to hva 1, not to the original
address. -/
theorem c10_roundtrip_counterexample :
    dune_hva_to_gpa ⟨4096, 4096⟩ ⟨2 ^ 19, 2 ^ 20⟩ (2 ^ 20 - 1) ≠ ADDR_INVAL ∧
      dune_gpa_to_hva ⟨4096, 4096⟩ ⟨2 ^ 19, 2 ^ 20⟩
        (dune_hva_to_gpa ⟨4096, 4096⟩ ⟨2 ^ 19, 2 ^ 20⟩ (2 ^ 20 - 1)) ≠ 2 ^ 20 - 1 := by
  decide

/-- C10 (amended): the translation round-trips whenever the stack and
map regions fit under `phys_end = 2 ^ get_pabit()` — which for the
source as written (the `get_pabit` stub returns 1) restricts the region
sizes to a combined 2 bytes. -/
theorem c10_roundtrip_amended (L : GpaLayout) (mm : MmStruct) (hva : Nat)
    (hm : mm.lgMmapBase < W64) (hs : mm.lgStartStack < W64) (hv : hva < W64)
    (hgs : L.gpaStackSize < W64) (hgm : L.gpaMapSize < W64)
    (hfit : L.gpaStackSize + L.gpaMapSize ≤ 2 ^ get_pabit)
    (hne : dune_hva_to_gpa L mm hva ≠ ADDR_INVAL) :
    dune_gpa_to_hva L mm (dune_hva_to_gpa L mm hva) = hva := by
  obtain ⟨gs, gm⟩ := L
  obtain ⟨mb, ss⟩ := mm
  simp only [dune_hva_to_gpa, dune_gpa_to_hva, usub, ADDR_INVAL, get_pabit, W64,
    pow_one] at *
  split_ifs at * <;> omega

/-- Witness for C10 at one-byte regions, `mmap base 100`, `stack base
200`, `hva = 199` (the single stack page byte). -/
theorem c10_roundtrip_witness :
    (1 + 1 ≤ 2 ^ get_pabit) ∧
      dune_hva_to_gpa ⟨1, 1⟩ ⟨100, 200⟩ 199 ≠ ADDR_INVAL ∧
      dune_gpa_to_hva ⟨1, 1⟩ ⟨100, 200⟩ (dune_hva_to_gpa ⟨1, 1⟩ ⟨100, 200⟩ 199) = 199 :=
  ⟨by decide, by decide,
    c10_roundtrip_amended ⟨1, 1⟩ ⟨100, 200⟩ 199 (by decide) (by decide) (by decide)
      (by decide) (by decide) (by decide) (by decide)⟩

/-! ## C2: the page table walk contract -/

/-- C2: with no cache, the walk returns not-found (NULL) exactly when an
intermediate level is missing (top slot or middle slot is the invalid
sentinel) and never mutates the table; with a cache holding the reserved
minimum, a missing middle node is allocated with every entry initialized
to the invalid sentinel (`emptyPmdTable`) and linked into the top slot, a
missing leaf node is allocated zeroed (`zeroPteTable`) and linked into
the middle slot, and the walk continues downward to the pte; and when
the middle-level slot holds a huge mapping the walk stops there and
returns that slot itself. -/
theorem c2_walk_contract (g : Pgd) (addr : Nat) (n : Nat) (hn : 2 ≤ n) :
    (kvm_mips_walk_pgd g none addr = some (g, none,
      if pmdSlot g addr = .none then .notFound
      else if pmdHuge (pmdSlot g addr) then .huge else .pte)) ∧
    (∀ m p, getPgd g (pgdIdx addr) = .table m → getPmd m (pmdIdx addr) = .huge p →
      kvm_mips_walk_pgd g (some n) addr = some (g, some n, .huge)) ∧
    (getPgd g (pgdIdx addr) = .none →
      kvm_mips_walk_pgd g (some n) addr =
        some (setPgd g (pgdIdx addr)
          (.table (setPmd emptyPmdTable (pmdIdx addr) (.table zeroPteTable))),
          some (n - 2), .pte)) ∧
    (∀ m, getPgd g (pgdIdx addr) = .table m → getPmd m (pmdIdx addr) = .none →
      kvm_mips_walk_pgd g (some n) addr =
        some (setPgd g (pgdIdx addr)
          (.table (setPmd m (pmdIdx addr) (.table zeroPteTable))),
          some (n - 1), .pte)) ∧
    (∀ m t, getPgd g (pgdIdx addr) = .table m → getPmd m (pmdIdx addr) = .table t →
      kvm_mips_walk_pgd g (some n) addr = some (g, some n, .pte)) :=
  ⟨walk_nocache_eq g addr,
    fun _ p hg hm => walk_cache_huge g addr (some n) _ p hg hm,
    fun hg => walk_cache_top_none g addr n hg hn,
    fun m hg hm => walk_cache_pmd_none g addr n m hg hm (by omega),
    fun m t hg hm => walk_cache_pte g addr (some n) m t hg hm⟩

/-- Witness for C2: a fresh directory allocates both levels from a
2-object cache; a directory with an existing leaf table walks without
allocating; a huge slot stops the walk. -/
theorem c2_walk_contract_witness :
    (2 ≤ 2) ∧
    kvm_mips_walk_pgd emptyPgd (some 2) 0 =
      some (setPgd emptyPgd 0 (.table (setPmd emptyPmdTable 0 (.table zeroPteTable))),
        some 0, .pte) ∧
    kvm_mips_walk_pgd (onePtePgd cleanPte) none 0 = some (onePtePgd cleanPte, none, .pte) ∧
    kvm_mips_walk_pgd (oneHugePgd cleanPte) (some 2) 0 =
      some (oneHugePgd cleanPte, some 2, .huge) :=
  ⟨le_refl 2,
    (c2_walk_contract emptyPgd 0 2 (le_refl 2)).2.2.1 rfl,
    by
      have h := (c2_walk_contract (onePtePgd cleanPte) 0 2 (le_refl 2)).1
      rw [h]
      decide,
    (c2_walk_contract (oneHugePgd cleanPte) 0 2 (le_refl 2)).2.1
      (setPmd emptyPmdTable 0 (.huge cleanPte)) cleanPte (by decide) (by decide)⟩

/-! ## C7: test_young is dead code -/

/-- C7: `kvm_test_age_hva(kvm, hva)` passes `hva` as both bounds of the
range, so every slot intersection `[max(hva, lo), min(hva, hi))` is
empty and every slot is skipped: the function returns 0 for every state,
slot list and address — it never reads the young flag, contradicting the
claimed behaviour (the young flag of the present entry, true after a
fault). -/
theorem c7_test_age_hva_dead (g : Pgd) (slots : List Memslot) (hva : Nat) :
    kvm_test_age_hva g slots hva = (g, false) := by
  unfold kvm_test_age_hva
  induction slots with
  | nil => rfl
  | cons slot rest ih =>
    have hcond : min hva (slot.userspace_addr + slot.npages * PAGE_SIZE) ≤
        max hva slot.userspace_addr :=
      le_trans (Nat.min_le_left _ _) (Nat.le_max_left _ _)
    simp only [handle_hva_to_gpa]
    rw [if_pos hcond]
    exact ih

/-- C7, the failing input made concrete: a present young entry at frame
0 of a slot covering `hva = 0`, where the claim requires `test_young` to
return true but the code returns 0. -/
theorem c7_test_age_hva_failing_input :
    (readForGpa (oneHugePgd dirtyPte) 0).map Pte.young = some true ∧
      kvm_test_age_hva (oneHugePgd dirtyPte) [⟨0, 16, 0⟩] 0 =
        (oneHugePgd dirtyPte, false) :=
  ⟨by decide, c7_test_age_hva_dead (oneHugePgd dirtyPte) [⟨0, 16, 0⟩] 0⟩

/-! ## C8: huge-page promotion guard -/

/-- The three branches of the granularity decision, spelled out. -/
theorem decideMapSize_eq (slot : Memslot) (hva vp : Nat) (thp : Bool) :
    decideMapSize slot hva vp thp =
      if fault_supports_huge_mapping slot hva vp = false then (PAGE_SIZE, true)
      else if vp = PAGE_SIZE then
        (if fault_supports_huge_mapping slot hva PMD_SIZE && thp then (PMD_SIZE, false)
          else (vp, false))
      else (vp, false) := by
  unfold decideMapSize
  by_cases hf : fault_supports_huge_mapping slot hva vp
  · by_cases hv : vp = PAGE_SIZE
    · subst hv
      simp [hf]
    · simp [hf, hv]
  · simp only [Bool.not_eq_true] at hf
    simp [hf]

/-- C8: a fault is mapped at `PMD_SIZE` only when
`fault_supports_huge_mapping` holds for `PMD_SIZE` (or the host vma
itself is `PMD_SIZE`-backed and passes the same check), which requires
the slot's guest-physical start and host-virtual start to share their
alignment within the mapping size and the aligned window around `hva`
to lie inside the slot's host range; a slot failing the check for the
vma page size is forced to the base page size; and a slot whose host
virtual start is offset from the guest-physical alignment by one base
page never yields a `PMD_SIZE` mapping at all. -/
theorem c8_huge_promotion_guard (slot : Memslot) (hva vp : Nat) (thp : Bool) :
    ((decideMapSize slot hva vp thp).1 = PMD_SIZE →
      fault_supports_huge_mapping slot hva PMD_SIZE = true ∨ vp = PMD_SIZE ∧
        fault_supports_huge_mapping slot hva vp = true) ∧
    (fault_supports_huge_mapping slot hva PMD_SIZE = true →
      slot.base_gfn * PAGE_SIZE % PMD_SIZE = slot.userspace_addr % PMD_SIZE ∧
      slot.userspace_addr ≤ alignDown hva PMD_SIZE ∧
      alignDown hva PMD_SIZE + PMD_SIZE ≤
        slot.userspace_addr + slot.npages * PAGE_SIZE) ∧
    (fault_supports_huge_mapping slot hva vp = false →
      decideMapSize slot hva vp thp = (PAGE_SIZE, true)) ∧
    (slot.userspace_addr % PMD_SIZE = PAGE_SIZE →
      slot.base_gfn * PAGE_SIZE % PMD_SIZE = 0 →
      (decideMapSize slot hva vp thp).1 ≠ PMD_SIZE) := by
  have hfe : ∀ m : Nat, fault_supports_huge_mapping slot hva m = true →
      slot.base_gfn * PAGE_SIZE % m = slot.userspace_addr % m ∧
      slot.userspace_addr ≤ alignDown hva m ∧
      alignDown hva m + m ≤ slot.userspace_addr + slot.npages * PAGE_SIZE := by
    intro m h
    unfold fault_supports_huge_mapping at h
    simp only [Bool.and_eq_true, beq_iff_eq, decide_eq_true_eq] at h
    exact ⟨h.1.1, h.1.2, h.2⟩
  refine ⟨?_, hfe PMD_SIZE, ?_, ?_⟩
  · intro h
    rw [decideMapSize_eq] at h
    split_ifs at h with h1 h2 h3
    · exact absurd h (by decide)
    · simp only [Bool.and_eq_true] at h3
      exact Or.inl h3.1
    · have h' : vp = PMD_SIZE := h
      rw [h2] at h'
      exact absurd h' (by decide)
    · have h' : vp = PMD_SIZE := h
      refine Or.inr ⟨h', ?_⟩
      revert h1
      cases fault_supports_huge_mapping slot hva vp <;> simp
  · intro h
    rw [decideMapSize_eq, if_pos h]
  · intro ha hg h
    have hfp : fault_supports_huge_mapping slot hva PMD_SIZE = false := by
      rcases hq : fault_supports_huge_mapping slot hva PMD_SIZE with _ | _
      · rfl
      · have := (hfe PMD_SIZE hq).1
        rw [hg, ha] at this
        exact absurd this (by decide)
    rw [decideMapSize_eq] at h
    split_ifs at h with h1 h2 h3
    · exact absurd h (by decide)
    · simp only [Bool.and_eq_true] at h3
      rw [h3.1] at hfp
      exact absurd hfp (by decide)
    · have h' : vp = PMD_SIZE := h
      rw [h2] at h'
      exact absurd h' (by decide)
    · have h' : vp = PMD_SIZE := h
      rw [h'] at h1
      have : fault_supports_huge_mapping slot hva PMD_SIZE = true := by
        revert h1
        cases fault_supports_huge_mapping slot hva PMD_SIZE <;> simp
      rw [this] at hfp
      exact absurd hfp (by decide)

/-- Witness for C8: an aligned slot promotes (all side conditions hold),
and the same slot shifted up by one base page is always forced to the
base page size. -/
theorem c8_huge_promotion_guard_witness :
    fault_supports_huge_mapping ⟨0, 16, 0⟩ 0 PMD_SIZE = true ∧
      (⟨0, 16, 0⟩ : Memslot).base_gfn * PAGE_SIZE % PMD_SIZE =
        (⟨0, 16, 0⟩ : Memslot).userspace_addr % PMD_SIZE ∧
      decideMapSize ⟨0, 16, PAGE_SIZE⟩ 0 PMD_SIZE true = (PAGE_SIZE, true) ∧
      (decideMapSize ⟨0, 16, PAGE_SIZE⟩ (2 * PAGE_SIZE) PAGE_SIZE true).1 ≠ PMD_SIZE :=
  ⟨by decide,
    ((c8_huge_promotion_guard ⟨0, 16, 0⟩ 0 PMD_SIZE true).2.1 (by decide)).1,
    (c8_huge_promotion_guard ⟨0, 16, PAGE_SIZE⟩ 0 PMD_SIZE true).2.2.1 (by decide),
    (c8_huge_promotion_guard ⟨0, 16, PAGE_SIZE⟩ (2 * PAGE_SIZE) PAGE_SIZE true).2.2.2
      (by decide) (by decide)⟩

/-! ## C9: kvm_mips_set_pmd_huge -/

theorem idxList_self (i : Nat) : idxList i i = [i] := by
  simp [idxList, List.range_succ]

/-- The safe-to-remove flag of the pmd flush loop never turns back on. -/
theorem flushPmdGo_safe_mono (lo hi s e : Nat) :
    ∀ (is : List Nat) (m : PmdTable) (safe : Bool),
      (flushPmdGo lo hi s e m safe is).2 = true → safe = true := by
  intro is
  induction is with
  | nil => intro m safe h; exact h
  | cons i is ih =>
    intro m safe h
    unfold flushPmdGo at h
    cases hm : getPmd m i with
    | none => simp only [hm] at h; exact ih _ _ h
    | huge p => simp only [hm] at h; exact ih _ _ h
    | table t =>
      simp only [hm] at h
      by_cases hc : (kvm_mips_flush_gpa_pte t (if i = lo then s else 0)
          (if i = hi then e else UMAX)).2 = true
      · rw [if_pos hc] at h
        exact ih _ _ h
      · rw [if_neg hc] at h
        exact absurd (ih _ _ h) (by decide)

/-- Same monotonicity at the top level. -/
theorem flushPgdGo_safe_mono (lo hi s e : Nat) :
    ∀ (is : List Nat) (g : Pgd) (safe : Bool),
      (flushPgdGo lo hi s e g safe is).2 = true → safe = true := by
  intro is
  induction is with
  | nil => intro g safe h; exact h
  | cons i is ih =>
    intro g safe h
    unfold flushPgdGo at h
    have := ih _ _ h
    cases safe with
    | true => rfl
    | false => simp at this

/-- A single-index top-level flush writes the pud result into the slot. -/
theorem flushPgd_single (g : Pgd) (s e : Nat) (h : pgdIdx s = pgdIdx e) :
    kvm_mips_flush_gpa_pgd g s e =
      (setPgd g (pgdIdx s) (kvm_mips_flush_gpa_pud (getPgd g (pgdIdx s)) s e).1,
        (pgdIdx s == 0 && pgdIdx s == PTRS_PER_PGD - 1) &&
          (kvm_mips_flush_gpa_pud (getPgd g (pgdIdx s)) s e).2) := by
  unfold kvm_mips_flush_gpa_pgd
  rw [← h, idxList_self]
  simp [flushPgdGo]

/-- A single-index pmd flush over a fully covered pte range clears the
slot. -/
theorem flushPmd_single_slot (m : PmdTable) (s e : Nat)
    (h : pmdIdx s = pmdIdx e) (hs : pteIdx s = 0) (he : pteIdx e = PTRS_PER_PTE - 1) :
    getPmd (kvm_mips_flush_gpa_pmd m s e).1 (pmdIdx s) = .none := by
  unfold kvm_mips_flush_gpa_pmd
  rw [← h, idxList_self]
  unfold flushPmdGo
  cases hm : getPmd m (pmdIdx s) with
  | none => exact hm
  | huge p =>
    unfold flushPmdGo
    exact getPmd_setPmd_self _ _ _
  | table t =>
    simp only [eq_self_iff_true, if_true]
    have hc : (kvm_mips_flush_gpa_pte t s e).2 = true := by
      unfold kvm_mips_flush_gpa_pte
      rw [hs, he]
      show (0 == 0 && PTRS_PER_PTE - 1 == PTRS_PER_PTE - 1) = true
      decide
    simp only [hc, eq_self_iff_true, if_true, flushPmdGo]
    exact getPmd_setPmd_self _ _ _

/-- A single-index pmd flush is never reported safe to remove (a single
index cannot be the whole range). -/
theorem flushPmd_single_not_safe (m : PmdTable) (s e : Nat)
    (h : pmdIdx s = pmdIdx e) :
    (kvm_mips_flush_gpa_pmd m s e).2 = false := by
  by_contra hc
  simp only [Bool.not_eq_false] at hc
  have hinit := flushPmdGo_safe_mono _ _ _ _ _ _ _ hc
  rw [← h] at hinit
  have h0 : pmdIdx s = 0 := by
    have := Bool.and_elim_left hinit
    simpa using this
  have h3 : pmdIdx s = PTRS_PER_PMD - 1 := by
    have := Bool.and_elim_right hinit
    simpa using this
  rw [h0] at h3
  exact absurd h3 (by decide)

/-- Flushing exactly the full PMD block containing `addr` (the range
`kvm_mips_set_pmd_huge` uses before its retry) keeps the top slot a
table and clears the middle slot. -/
theorem flush_block_clears (g : Pgd) (addr : Nat) (m : PmdTable)
    (hg : getPgd g (pgdIdx addr) = .table m) :
    ∃ m2, (kvm_mips_flush_gpa_pt g (addr / PMD_SIZE * PMD_SIZE / PAGE_SIZE)
        ((addr / PMD_SIZE * PMD_SIZE + (PMD_SIZE - 1)) / PAGE_SIZE)).1 =
      setPgd g (pgdIdx addr) (.table m2) ∧ getPmd m2 (pmdIdx addr) = .none := by
  have hsm : addr / PMD_SIZE * PMD_SIZE / PAGE_SIZE * PAGE_SIZE =
      addr / PMD_SIZE * PMD_SIZE := by
    unfold PMD_SIZE PAGE_SIZE
    omega
  have hem : (addr / PMD_SIZE * PMD_SIZE + (PMD_SIZE - 1)) / PAGE_SIZE * PAGE_SIZE =
      addr / PMD_SIZE * PMD_SIZE + 3 * PAGE_SIZE := by
    unfold PMD_SIZE PAGE_SIZE
    omega
  have hpgs : pgdIdx (addr / PMD_SIZE * PMD_SIZE) = pgdIdx addr := by
    unfold pgdIdx PMD_SIZE PGDIR_SIZE PTRS_PER_PGD
    omega
  have hpge : pgdIdx (addr / PMD_SIZE * PMD_SIZE + 3 * PAGE_SIZE) = pgdIdx addr := by
    unfold pgdIdx PMD_SIZE PAGE_SIZE PGDIR_SIZE PTRS_PER_PGD
    omega
  have hpms : pmdIdx (addr / PMD_SIZE * PMD_SIZE) = pmdIdx addr := by
    unfold pmdIdx PMD_SIZE PTRS_PER_PMD
    omega
  have hpme : pmdIdx (addr / PMD_SIZE * PMD_SIZE + 3 * PAGE_SIZE) = pmdIdx addr := by
    unfold pmdIdx PMD_SIZE PAGE_SIZE PTRS_PER_PMD
    omega
  have hpts : pteIdx (addr / PMD_SIZE * PMD_SIZE) = 0 := by
    unfold pteIdx PMD_SIZE PAGE_SIZE PTRS_PER_PTE
    omega
  have hpte : pteIdx (addr / PMD_SIZE * PMD_SIZE + 3 * PAGE_SIZE) = 3 := by
    unfold pteIdx PMD_SIZE PAGE_SIZE PTRS_PER_PTE
    omega
  unfold kvm_mips_flush_gpa_pt
  rw [hsm, hem]
  rw [flushPgd_single g _ _ (by rw [hpgs, hpge])]
  rw [hpgs, hg]
  have hns : (kvm_mips_flush_gpa_pmd m (addr / PMD_SIZE * PMD_SIZE)
      (addr / PMD_SIZE * PMD_SIZE + 3 * PAGE_SIZE)).2 = false :=
    flushPmd_single_not_safe m _ _ (by rw [hpms, hpme])
  have hslot : getPmd (kvm_mips_flush_gpa_pmd m (addr / PMD_SIZE * PMD_SIZE)
      (addr / PMD_SIZE * PMD_SIZE + 3 * PAGE_SIZE)).1 (pmdIdx addr) = .none := by
    have := flushPmd_single_slot m (addr / PMD_SIZE * PMD_SIZE)
      (addr / PMD_SIZE * PMD_SIZE + 3 * PAGE_SIZE) (by rw [hpms, hpme]) hpts
      (by rw [hpte]; decide)
    rw [hpms] at this
    exact this
  refine ⟨(kvm_mips_flush_gpa_pmd m (addr / PMD_SIZE * PMD_SIZE)
      (addr / PMD_SIZE * PMD_SIZE + 3 * PAGE_SIZE)).1, ?_, hslot⟩
  simp [kvm_mips_flush_gpa_pud, hns]

/-- After `kvm_mips_get_pmd` materializes the top slot, `setPmdSlot`
writes through it and reads back. -/
theorem pmdSlot_setPmdSlot (g : Pgd) (addr : Nat) (m : PmdTable) (v : PmdEntry)
    (hg : getPgd g (pgdIdx addr) = .table m) :
    pmdSlot (setPmdSlot g addr v) addr = v := by
  simp only [setPmdSlot, hg]
  simp only [pmdSlot, getPgd_setPgd_self, getPmd_setPmd_self]

theorem setPmdSlot_top (g : Pgd) (addr : Nat) (m : PmdTable) (v : PmdEntry)
    (hg : getPgd g (pgdIdx addr) = .table m) :
    getPgd (setPmdSlot g addr v) (pgdIdx addr) = .table (setPmd m (pmdIdx addr) v) := by
  simp only [setPmdSlot, hg]
  rw [getPgd_setPgd_self]

/-- C9 (amended): an install whose value equals the slot in place
returns 0 and leaves the table, trace and retry count empty (so the
second of two identical installs exits early); an install over a present
non-huge entry first unmaps the whole PMD-covered frame range and takes
the retry loop once, with the hardware invalidation before the entry
write; and an install over a differing huge entry clears it first and
writes the new entry directly (hardware invalidation in between, a
warning in the source when the frame differs), with zero retry
iterations rather than the claimed re-entry of the retry loop. -/
theorem c9_set_pmd_huge_contract (g : Pgd) (n : Nat) (addr : Nat) (newp p : Pte)
    (m : PmdTable) (t : Fin PTRS_PER_PTE → Pte) :
    (pmdSlot g addr = .huge newp →
      kvm_mips_set_pmd_huge g (some n) addr newp = some (0, g, some n, [], 0)) ∧
    (getPgd g (pgdIdx addr) = .table m → getPmd m (pmdIdx addr) = .table t →
      ∃ g2, kvm_mips_set_pmd_huge g (some n) addr newp =
        some (0, g2, some n,
          [.flush (addr / PMD_SIZE * PMD_SIZE / PAGE_SIZE)
              ((addr / PMD_SIZE * PMD_SIZE + (PMD_SIZE - 1)) / PAGE_SIZE),
            .tlbInv (addr / PMD_SIZE * PMD_SIZE), .setSlot], 1) ∧
        pmdSlot g2 addr = .huge newp) ∧
    (pmdSlot g addr = .huge p → p ≠ newp →
      ∃ g2, kvm_mips_set_pmd_huge g (some n) addr newp =
        some (0, g2, some n,
          [.clearSlot, .tlbInv (addr / PMD_SIZE * PMD_SIZE), .setSlot], 0) ∧
        pmdSlot g2 addr = .huge newp) := by
  refine ⟨?_, ?_, ?_⟩
  · intro hslot
    have hg : ∃ m0, getPgd g (pgdIdx addr) = .table m0 := by
      cases hg0 : getPgd g (pgdIdx addr) with
      | none => simp [pmdSlot, hg0] at hslot
      | table m0 => exact ⟨m0, rfl⟩
    obtain ⟨m0, hg⟩ := hg
    unfold kvm_mips_set_pmd_huge setPmdHugeGo kvm_mips_get_pmd
    rw [hg]
    simp only [hslot, pmdValEq]
    simp
  · intro hg hm
    have hslot : pmdSlot g addr = .table t := by
      simp only [pmdSlot, hg]
      exact hm
    obtain ⟨m2, hflush, hm2⟩ := flush_block_clears g addr m hg
    have hg2 : getPgd (kvm_mips_flush_gpa_pt g (addr / PMD_SIZE * PMD_SIZE / PAGE_SIZE)
        ((addr / PMD_SIZE * PMD_SIZE + (PMD_SIZE - 1)) / PAGE_SIZE)).1 (pgdIdx addr) =
        .table m2 := by
      rw [hflush, getPgd_setPgd_self]
    have hslot2 : pmdSlot (kvm_mips_flush_gpa_pt g
        (addr / PMD_SIZE * PMD_SIZE / PAGE_SIZE)
        ((addr / PMD_SIZE * PMD_SIZE + (PMD_SIZE - 1)) / PAGE_SIZE)).1 addr = .none := by
      simp only [pmdSlot, hg2]
      exact hm2
    refine ⟨setPmdSlot (kvm_mips_flush_gpa_pt g
        (addr / PMD_SIZE * PMD_SIZE / PAGE_SIZE)
        ((addr / PMD_SIZE * PMD_SIZE + (PMD_SIZE - 1)) / PAGE_SIZE)).1 addr (.huge newp),
      ?_, ?_⟩
    · unfold kvm_mips_set_pmd_huge setPmdHugeGo kvm_mips_get_pmd
      rw [hg]
      simp only [hslot, pmdValEq, pmdPresent, pmdNone, pmdHuge, Bool.not_false,
        Bool.and_true, if_false, Bool.not_true, Bool.and_false]
      unfold setPmdHugeGo kvm_mips_get_pmd
      rw [hg2]
      simp only [hslot2, pmdValEq, pmdPresent, pmdNone, pmdHuge, Bool.not_true,
        Bool.and_false, if_false, Bool.false_and]
      simp
    · exact pmdSlot_setPmdSlot _ _ m2 _ hg2
  · intro hslot hne
    have hg : ∃ m0, getPgd g (pgdIdx addr) = .table m0 := by
      cases hg0 : getPgd g (pgdIdx addr) with
      | none => simp [pmdSlot, hg0] at hslot
      | table m0 => exact ⟨m0, rfl⟩
    obtain ⟨m0, hg⟩ := hg
    refine ⟨setPmdSlot (setPmdSlot g addr .none) addr (.huge newp), ?_, ?_⟩
    · unfold kvm_mips_set_pmd_huge setPmdHugeGo kvm_mips_get_pmd
      rw [hg]
      simp only [hslot, pmdValEq, pmdPresent, pmdNone, pmdHuge, decide_eq_true_eq]
      simp [hne]
    · have htop : getPgd (setPmdSlot g addr .none) (pgdIdx addr) =
          .table (setPmd m0 (pmdIdx addr) .none) := setPmdSlot_top g addr m0 _ hg
      exact pmdSlot_setPmdSlot _ _ _ _ htop

/-- Witness for C9 covering all three branches at concrete inputs. -/
theorem c9_set_pmd_huge_contract_witness :
    kvm_mips_set_pmd_huge (oneHugePgd cleanPte) (some 2) 0 cleanPte =
      some (0, oneHugePgd cleanPte, some 2, [], 0) ∧
    (∃ g2, kvm_mips_set_pmd_huge (onePtePgd cleanPte) (some 2) 0 dirtyPte =
      some (0, g2, some 2, [.flush 0 3, .tlbInv 0, .setSlot], 1) ∧
        pmdSlot g2 0 = .huge dirtyPte) ∧
    (∃ g2, kvm_mips_set_pmd_huge (oneHugePgd cleanPte) (some 2) 0 dirtyPte =
      some (0, g2, some 2, [.clearSlot, .tlbInv 0, .setSlot], 0) ∧
        pmdSlot g2 0 = .huge dirtyPte) :=
  ⟨(c9_set_pmd_huge_contract (oneHugePgd cleanPte) 2 0 cleanPte cleanPte
      emptyPmdTable zeroPteTable).1 (by decide),
    (c9_set_pmd_huge_contract (onePtePgd cleanPte) 2 0 dirtyPte cleanPte
      (setPmd emptyPmdTable 0 (.table (setPte zeroPteTable 0 cleanPte)))
      (setPte zeroPteTable 0 cleanPte)).2.1 (by decide) (by decide),
    (c9_set_pmd_huge_contract (oneHugePgd cleanPte) 2 0 dirtyPte cleanPte
      emptyPmdTable zeroPteTable).2.2 (by decide) (by decide)⟩


/-- Counterexample for C9 as stated: replacing a present huge entry
whose host frame differs (pfn 7 by pfn 9) does not re-enter the retry
loop — the `goto retry` count is 0 and the trace is clear, invalidate,
write; only the present non-huge case retries.  The entry is still torn
down first, not silently overwritten. -/
theorem c9_retry_counterexample :
    (kvm_mips_set_pmd_huge (oneHugePgd cleanPte) (some 2) 0 otherPfnPte).map
        (fun r => (r.1, r.2.2.2.1, r.2.2.2.2)) =
      some (0, [MmuEv.clearSlot, MmuEv.tlbInv 0, MmuEv.setSlot], 0) ∧
      (kvm_mips_set_pmd_huge (oneHugePgd cleanPte) (some 2) 0 otherPfnPte).map
        (fun r => pmdSlot r.2.1 0) = some (PmdEntry.huge otherPfnPte) := by decide

/-! ## C1: fault handling preserves present and dirty-implies-writable -/

/-- Writing through the walk pointer and reading back yields the written
value, whenever the walk position exists. -/
theorem read_writeAtWalk (g : Pgd) (gpa : Nat) (v w : Pte)
    (h : readForGpa g gpa = some w) :
    readForGpa (writeAtWalk g gpa v) gpa = some v := by
  cases hg : getPgd g (pgdIdx gpa) with
  | none => simp [readForGpa, hg] at h
  | table m =>
    cases hm : getPmd m (pmdIdx gpa) with
    | none => simp [readForGpa, hg, hm] at h
    | huge p =>
      simp [readForGpa, writeAtWalk, hg, hm, getPgd_setPgd_self, getPmd_setPmd_self]
    | table t =>
      simp [readForGpa, writeAtWalk, hg, hm, getPgd_setPgd_self, getPmd_setPmd_self,
        getPte_setPte_self]

/-- `kvm_mips_get_pmd` leaves a pmd node under the top slot whenever it
succeeds. -/
theorem get_pmd_top (g : Pgd) (c : Option Nat) (addr : Nat) (g1 : Pgd) (c1 : Option Nat)
    (h : kvm_mips_get_pmd g c addr = some (g1, c1)) :
    ∃ m1, getPgd g1 (pgdIdx addr) = .table m1 := by
  cases hg : getPgd g (pgdIdx addr) with
  | none =>
    cases c with
    | none => simp [kvm_mips_get_pmd, hg] at h
    | some n =>
      by_cases hn : n = 0
      · simp [kvm_mips_get_pmd, hg, hn] at h
      · simp only [kvm_mips_get_pmd, hg, hn, if_false, Option.some.injEq,
          Prod.mk.injEq] at h
        refine ⟨emptyPmdTable, ?_⟩
        rw [← h.1]
        exact getPgd_setPgd_self g _ _
  | table m =>
    cases c with
    | none =>
      simp only [kvm_mips_get_pmd, hg, Option.some.injEq, Prod.mk.injEq] at h
      refine ⟨m, ?_⟩
      rw [← h.1]
      exact hg
    | some n =>
      simp only [kvm_mips_get_pmd, hg, Option.some.injEq, Prod.mk.injEq] at h
      refine ⟨m, ?_⟩
      rw [← h.1]
      exact hg

theorem pmdValEq_huge_iff (e : PmdEntry) (v : Pte) :
    pmdValEq e (.huge v) = true ↔ e = .huge v := by
  cases e <;> simp [pmdValEq]

/-- Whenever `kvm_mips_set_pmd_huge` returns, it returns 0 and leaves
the new huge value in the governing middle-level slot. -/
theorem setPmdHuge_final (g : Pgd) (c : Option Nat) (addr : Nat) (v : Pte)
    (r : Int × Pgd × Option Nat × List MmuEv × Nat)
    (h : kvm_mips_set_pmd_huge g c addr v = some r) :
    r.1 = 0 ∧ pmdSlot r.2.1 addr = .huge v := by
  unfold kvm_mips_set_pmd_huge setPmdHugeGo at h
  cases hgp : kvm_mips_get_pmd g c addr with
  | none => rw [hgp] at h; exact absurd h (by simp)
  | some gc =>
    obtain ⟨g1, c1⟩ := gc
    obtain ⟨m1, htop1⟩ := get_pmd_top g c addr g1 c1 hgp
    simp only [hgp] at h
    by_cases hv : pmdValEq (pmdSlot g1 addr) (.huge v) = true
    · rw [if_pos hv] at h
      simp only [Option.some.injEq] at h
      subst h
      exact ⟨rfl, (pmdValEq_huge_iff _ _).mp hv⟩
    · rw [if_neg hv] at h
      by_cases hp : (pmdPresent (pmdSlot g1 addr) && !pmdHuge (pmdSlot g1 addr)) = true
      · rw [if_pos hp] at h
        obtain ⟨m2, hflush, hm2⟩ := flush_block_clears g1 addr m1 htop1
        have hg2 : getPgd (kvm_mips_flush_gpa_pt g1
            (addr / PMD_SIZE * PMD_SIZE / PAGE_SIZE)
            ((addr / PMD_SIZE * PMD_SIZE + (PMD_SIZE - 1)) / PAGE_SIZE)).1
            (pgdIdx addr) = .table m2 := by
          rw [hflush, getPgd_setPgd_self]
        have hslot2 : pmdSlot (kvm_mips_flush_gpa_pt g1
            (addr / PMD_SIZE * PMD_SIZE / PAGE_SIZE)
            ((addr / PMD_SIZE * PMD_SIZE + (PMD_SIZE - 1)) / PAGE_SIZE)).1 addr =
            .none := by
          simp only [pmdSlot, hg2]
          exact hm2
        unfold setPmdHugeGo kvm_mips_get_pmd at h
        rw [hg2] at h
        cases c1 with
        | none =>
          simp only [hslot2, pmdValEq, pmdPresent, pmdNone, pmdHuge, Bool.not_true,
            Bool.and_false, Bool.false_eq_true, if_false, Bool.false_and,
            List.nil_append, Option.some.injEq] at h
          subst h
          exact ⟨rfl, pmdSlot_setPmdSlot _ _ m2 _ hg2⟩
        | some n1 =>
          simp only [hslot2, pmdValEq, pmdPresent, pmdNone, pmdHuge, Bool.not_true,
            Bool.and_false, Bool.false_eq_true, if_false, Bool.false_and,
            List.nil_append, Option.some.injEq] at h
          subst h
          exact ⟨rfl, pmdSlot_setPmdSlot _ _ m2 _ hg2⟩
      · rw [if_neg hp] at h
        simp only [Option.some.injEq] at h
        subst h
        refine ⟨rfl, ?_⟩
        by_cases hpp : pmdPresent (pmdSlot g1 addr) = true
        · rw [if_pos hpp]
          have htop3 : getPgd (setPmdSlot g1 addr .none) (pgdIdx addr) =
              .table (setPmd m1 (pmdIdx addr) .none) := setPmdSlot_top g1 addr m1 _ htop1
          exact pmdSlot_setPmdSlot _ _ _ _ htop3
        · rw [if_neg hpp]
          exact pmdSlot_setPmdSlot _ _ m1 _ htop1

/-- A walk that returns a leaf pointer lands on an existing entry. -/
theorem walk_pte_read (g : Pgd) (c : Option Nat) (addr : Nat) (g1 : Pgd)
    (c1 : Option Nat) (h : kvm_mips_walk_pgd g c addr = some (g1, c1, .pte)) :
    ∃ w, readForGpa g1 addr = some w := by
  cases hg : getPgd g (pgdIdx addr) with
  | none =>
    cases c with
    | none => simp [kvm_mips_walk_pgd, hg] at h
    | some n =>
      by_cases hn : n = 0
      · simp [kvm_mips_walk_pgd, hg, hn] at h
      · have hemp : getPmd emptyPmdTable (pmdIdx addr) = .none := rfl
        by_cases hn1 : n - 1 = 0
        · simp [kvm_mips_walk_pgd, walkPmdLevel, hg, hn, hemp, hn1] at h
        · simp only [kvm_mips_walk_pgd, walkPmdLevel, hg, hn, hemp, hn1, if_false,
            Option.some.injEq, Prod.mk.injEq] at h
          refine ⟨pte0, ?_⟩
          rw [← h.1]
          simp [readForGpa, setPgd_setPgd_self, getPgd_setPgd_self, getPmd_setPmd_self,
            getPte, zeroPteTable]
  | table m =>
    cases hm : getPmd m (pmdIdx addr) with
    | huge p => simp [kvm_mips_walk_pgd, walkPmdLevel, hg, hm] at h
    | none =>
      cases c with
      | none => simp [kvm_mips_walk_pgd, walkPmdLevel, hg, hm] at h
      | some n =>
        by_cases hn : n = 0
        · simp [kvm_mips_walk_pgd, walkPmdLevel, hg, hm, hn] at h
        · simp only [kvm_mips_walk_pgd, walkPmdLevel, hg, hm, hn, if_false,
            Option.some.injEq, Prod.mk.injEq] at h
          refine ⟨pte0, ?_⟩
          rw [← h.1]
          simp [readForGpa, getPgd_setPgd_self, getPmd_setPmd_self, getPte, zeroPteTable]
    | table t =>
      cases c with
      | none =>
        simp only [kvm_mips_walk_pgd, walkPmdLevel, hg, hm, Option.some.injEq,
          Prod.mk.injEq] at h
        refine ⟨getPte t (pteIdx addr), ?_⟩
        rw [← h.1]
        simp [readForGpa, hg, hm]
      | some n =>
        simp only [kvm_mips_walk_pgd, walkPmdLevel, hg, hm, Option.some.injEq,
          Prod.mk.injEq] at h
        refine ⟨getPte t (pteIdx addr), ?_⟩
        rw [← h.1]
        simp [readForGpa, hg, hm]


/-- A huge middle-level slot is what the NULL-cache walk reads. -/
theorem read_of_pmdSlot_huge (g : Pgd) (addr : Nat) (p : Pte)
    (h : pmdSlot g addr = .huge p) : readForGpa g addr = some p := by
  cases hg : getPgd g (pgdIdx addr) with
  | none => simp [pmdSlot, hg] at h
  | table m =>
    simp only [pmdSlot, hg] at h
    simp [readForGpa, hg, h]

/-- Fast-path success: the returned entry is the one left in the table,
present, and clean of any dirty-without-write violation (given the
walked entry satisfied the invariant beforehand). -/
theorem fast_path_success (g : Pgd) (gpa : Nat) (wf : Bool) (p0 : Pte)
    (hread : readForGpa g gpa = some p0) (hinv : p0.dirty = true → p0.write = true)
    (g2 : Pgd) (out : Pte) (h : _kvm_mips_map_page_fast g gpa wf = (g2, some out)) :
    out.present = true ∧ (out.dirty = true → out.write = true) ∧
      readForGpa g2 gpa = some out := by
  unfold _kvm_mips_map_page_fast at h
  simp only [hread] at h
  by_cases hpres : p0.present = true
  · simp only [hpres, Bool.not_true, Bool.false_eq_true, if_false] at h
    by_cases hy : p0.young = true
    · simp only [hy, Bool.not_true, Bool.false_eq_true, if_false] at h
      by_cases hwd : (wf && !p0.dirty) = true
      · rw [if_pos hwd] at h
        by_cases hw : p0.write = true
        · simp only [hw, Bool.not_true, Bool.false_eq_true, if_false,
            Prod.mk.injEq, Option.some.injEq] at h
          obtain ⟨hg2, hout⟩ := h
          subst hg2
          subst hout
          refine ⟨by simp [pte_mkdirty, hpres], by simp [pte_mkdirty, hw], ?_⟩
          exact read_writeAtWalk g gpa _ _ hread
        · simp only [hw] at h
          simp at h
      · rw [if_neg hwd] at h
        simp only [Prod.mk.injEq, Option.some.injEq] at h
        obtain ⟨hg2, hout⟩ := h
        subst hg2
        subst hout
        exact ⟨hpres, hinv, hread⟩
    · simp only [hy, Bool.not_false, if_true] at h
      have hread1 : readForGpa (writeAtWalk g gpa (pte_mkyoung p0)) gpa =
          some (pte_mkyoung p0) := read_writeAtWalk g gpa _ _ hread
      by_cases hwd : (wf && !(pte_mkyoung p0).dirty) = true
      · rw [if_pos hwd] at h
        by_cases hw : (pte_mkyoung p0).write = true
        · simp only [hw, Bool.not_true, Bool.false_eq_true, if_false,
            Prod.mk.injEq, Option.some.injEq] at h
          obtain ⟨hg2, hout⟩ := h
          subst hg2
          subst hout
          refine ⟨by simp [pte_mkdirty, pte_mkyoung, hpres],
            by simp [pte_mkdirty, pte_mkyoung]; simpa [pte_mkyoung] using hw, ?_⟩
          exact read_writeAtWalk _ gpa _ _ hread1
        · simp only [hw] at h
          simp at h
      · rw [if_neg hwd] at h
        simp only [Prod.mk.injEq, Option.some.injEq] at h
        obtain ⟨hg2, hout⟩ := h
        subst hg2
        subst hout
        refine ⟨by simp [pte_mkyoung, hpres], ?_, hread1⟩
        intro hd
        simp only [pte_mkyoung] at hd ⊢
        exact hinv hd
  · simp only [Bool.not_eq_true] at hpres
    simp [hpres] at h

/-- Fast-path refusal: a write fault on a present, clean, read-only
entry exits with `-EFAULT` and the entry left in the table stays
clean. -/
theorem fast_path_readonly (g : Pgd) (gpa : Nat) (p0 : Pte)
    (hread : readForGpa g gpa = some p0) (hpres : p0.present = true)
    (hw : p0.write = false) (hd : p0.dirty = false) :
    (_kvm_mips_map_page_fast g gpa true).2 = none ∧
    ∃ q, readForGpa (_kvm_mips_map_page_fast g gpa true).1 gpa = some q ∧
      q.dirty = false := by
  unfold _kvm_mips_map_page_fast
  simp only [hread]
  by_cases hy : p0.young = true
  · simp only [hy, hpres, hd, hw, Bool.not_true, Bool.not_false, Bool.false_eq_true,
      if_false, if_true, Bool.true_and]
    exact ⟨trivial, p0, hread, hd⟩
  · simp only [hy, hpres, Bool.not_true, Bool.not_false, Bool.false_eq_true,
      if_false, if_true]
    have hd1 : (pte_mkyoung p0).dirty = false := by simp [pte_mkyoung, hd]
    have hw1 : (pte_mkyoung p0).write = false := by simp [pte_mkyoung, hw]
    simp only [hd1, hw1, Bool.not_false, Bool.true_and, if_true, Bool.false_eq_true,
      if_false]
    exact ⟨trivial, pte_mkyoung p0, read_writeAtWalk g gpa _ _ hread, hd1⟩

/-- C1: every successfully resolved fault leaves a present entry whose
dirty flag implies its writable flag — on the fast path (given the
walked entry satisfied the invariant), and on the slow path, whose
committed entry has write = slot writability and dirty exactly on
writable write faults; and a write fault on a present clean read-only
entry fails out of the fast path without setting dirty. -/
theorem c1_fault_entry_invariant (g : Pgd) (gpa : Nat) (wf : Bool)
    (cache host : Nat) (slot : Memslot) (hvaOk : Bool) (hva : Nat) (writable : Bool)
    (vp : Nat) (thp : Bool) (pfnOk : Bool) (pfn : Nat) (writeable : Bool) :
    (∀ p0 g2 out, readForGpa g gpa = some p0 → (p0.dirty = true → p0.write = true) →
      _kvm_mips_map_page_fast g gpa wf = (g2, some out) →
        out.present = true ∧ (out.dirty = true → out.write = true) ∧
          readForGpa g2 gpa = some out) ∧
    (∀ p0, readForGpa g gpa = some p0 → p0.present = true → p0.write = false →
      p0.dirty = false →
        (_kvm_mips_map_page_fast g gpa true).2 = none ∧
        ∃ q, readForGpa (_kvm_mips_map_page_fast g gpa true).1 gpa = some q ∧
          q.dirty = false) ∧
    (∀ ret g2 c2 h2 out,
      kvm_mips_map_page_slow g cache host gpa wf slot hvaOk hva writable vp thp
          pfnOk pfn writeable = some (ret, g2, c2, h2, out) → ret = 0 →
        ∃ q, readForGpa g2 gpa = some q ∧ q.present = true ∧
          (q.dirty = true → q.write = true) ∧ q.write = writeable ∧
          q.dirty = (writeable && wf)) := by
  refine ⟨fun p0 g2 out hread hinv h => fast_path_success g gpa wf p0 hread hinv g2 out h,
    fun p0 hread hp hw hd => fast_path_readonly g gpa p0 hread hp hw hd, ?_⟩
  intro ret g2 c2 h2 out h hret
  subst hret
  unfold kvm_mips_map_page_slow at h
  by_cases h1 : (!hvaOk || (wf && !writable)) = true
  · rw [if_pos h1] at h
    simp only [Option.some.injEq, Prod.mk.injEq] at h
    exact absurd h.1 (by decide)
  · rw [if_neg h1] at h
    by_cases ht0 : (mmu_topup_memory_cache cache KVM_MMU_CACHE_MIN_PAGES
        KVM_NR_MEM_OBJS host).1 ≠ 0
    · rw [if_pos ht0] at h
      simp only [Option.some.injEq, Prod.mk.injEq] at h
      exact absurd h.1 ht0
    · rw [if_neg ht0] at h
      by_cases hpfn : (!pfnOk) = true
      · rw [if_pos hpfn] at h
        simp only [Option.some.injEq, Prod.mk.injEq] at h
        exact absurd h.1 (by decide)
      · rw [if_neg hpfn] at h
        by_cases hsz : (decideMapSize slot hva vp thp).1 = PMD_SIZE
        · rw [if_pos hsz] at h
          cases hsp : kvm_mips_set_pmd_huge g
              (some (mmu_topup_memory_cache cache KVM_MMU_CACHE_MIN_PAGES
                KVM_NR_MEM_OBJS host).2.1) gpa
              ⟨true, writeable, writeable && wf, true, pfn, pageCachableDefault⟩ with
          | none => rw [hsp] at h; exact absurd h (by simp)
          | some rr =>
            obtain ⟨r1, gr, cr, tr, kr⟩ := rr
            rw [hsp] at h
            simp only [Option.some.injEq, Prod.mk.injEq] at h
            obtain ⟨-, hg2, -⟩ := h
            have := setPmdHuge_final _ _ _ _ _ hsp
            refine ⟨⟨true, writeable, writeable && wf, true, pfn, pageCachableDefault⟩,
              ?_, rfl, ?_, rfl, rfl⟩
            · rw [← hg2]
              exact read_of_pmdSlot_huge _ _ _ this.2
            · intro hdirty
              simp only at hdirty
              exact (Bool.and_eq_true _ _).mp hdirty |>.1
        · rw [if_neg hsz] at h
          cases hwk : kvm_mips_walk_pgd g
              (some (mmu_topup_memory_cache cache KVM_MMU_CACHE_MIN_PAGES
                KVM_NR_MEM_OBJS host).2.1) gpa with
          | none => rw [hwk] at h; exact absurd h (by simp)
          | some rr =>
            obtain ⟨gw, cw, res⟩ := rr
            rw [hwk] at h
            cases res with
            | notFound => exact absurd h (by simp)
            | huge => exact absurd h (by simp)
            | pte =>
              simp only [Option.some.injEq, Prod.mk.injEq] at h
              obtain ⟨-, hg2, -⟩ := h
              obtain ⟨w, hw⟩ := walk_pte_read g _ gpa gw cw hwk
              refine ⟨⟨true, writeable, writeable && wf, true, pfn, pageCachableDefault⟩,
                ?_, rfl, ?_, rfl, rfl⟩
              · rw [← hg2]
                exact read_writeAtWalk gw gpa _ _ hw
              · intro hdirty
                simp only at hdirty
                exact (Bool.and_eq_true _ _).mp hdirty |>.1

/-- Witness for C1: a write fault on a clean writable young entry
dirties it on the fast path; a write fault on a read-only entry fails
without dirtying; a slow-path commit installs a present entry obeying
the invariant. -/
theorem c1_fault_entry_invariant_witness :
    (_kvm_mips_map_page_fast (onePtePgd cleanPte) 0 true =
        ((onePtePgd (pte_mkdirty cleanPte)), some (pte_mkdirty cleanPte)) →
      (pte_mkdirty cleanPte).present = true ∧
        ((pte_mkdirty cleanPte).dirty = true → (pte_mkdirty cleanPte).write = true) ∧
        readForGpa (onePtePgd (pte_mkdirty cleanPte)) 0 = some (pte_mkdirty cleanPte)) ∧
    ((_kvm_mips_map_page_fast (onePtePgd roPte) 0 true).2 = none ∧
      ∃ q, readForGpa (_kvm_mips_map_page_fast (onePtePgd roPte) 0 true).1 0 = some q ∧
        q.dirty = false) ∧
    (∃ q, readForGpa (writeAtWalk (onePtePgd cleanPte) 0
          ⟨true, true, true, true, 5, pageCachableDefault⟩) 0 =
        some q ∧ q.present = true ∧ (q.dirty = true → q.write = true) ∧
        q.write = true ∧ q.dirty = (true && true)) :=
  ⟨fun h =>
    (c1_fault_entry_invariant (onePtePgd cleanPte) 0 true 2 4 ⟨0, 16, 0⟩ true 0 true
        PAGE_SIZE false true 5 true).1 cleanPte _ _ (by decide) (by decide) h,
    (c1_fault_entry_invariant (onePtePgd roPte) 0 true 2 4 ⟨0, 16, 0⟩ true 0 true
        PAGE_SIZE false true 5 true).2.1 roPte (by decide) (by decide) (by decide)
        (by decide),
    (c1_fault_entry_invariant (onePtePgd cleanPte) 0 true 2 4 ⟨0, 16, 0⟩ true 0 true
        PAGE_SIZE false true 5 true).2.2 0
      (writeAtWalk (onePtePgd cleanPte) 0 ⟨true, true, true, true, 5, pageCachableDefault⟩)
      2 4 (some ⟨true, true, true, true, 5, pageCachableDefault⟩) rfl rfl⟩

/-! ## C3: range operations do not report huge-entry changes -/

/-- C3: the failing input.  The only mapping is a dirty huge entry;
`kvm_mips_mkclean_gpa_pt` over frames 0-10 cleans it (the table
changes), yet returns 0 — the pmd-level huge branch of
`BUILD_PTE_RANGE_OP` omits `ret = 1`, contradicting both the claim and
the macro comment "returns true if anything was done".  The mkold
variant behaves identically. -/
theorem c3_mkclean_huge_change_not_reported :
    (kvm_mips_mkclean_gpa_pt (oneHugePgd dirtyPte) 0 10).2 = false ∧
      (kvm_mips_mkclean_gpa_pt (oneHugePgd dirtyPte) 0 10).1 ≠ oneHugePgd dirtyPte ∧
      pmdSlot (kvm_mips_mkclean_gpa_pt (oneHugePgd dirtyPte) 0 10).1 0 =
        .huge (pte_mkclean dirtyPte) ∧
      (kvm_mips_mkold_gpa_pt (oneHugePgd dirtyPte) 0 10).2 = false ∧
      pmdSlot (kvm_mips_mkold_gpa_pt (oneHugePgd dirtyPte) 0 10).1 0 =
        .huge (pte_mkold dirtyPte) := by decide

/-! ## Index-list structure of the flush loops -/

theorem mem_idxList (lo hi i : Nat) : i ∈ idxList lo hi ↔ lo ≤ i ∧ i ≤ hi := by
  simp only [idxList, List.mem_map, List.mem_range]
  constructor
  · rintro ⟨k, hk, rfl⟩
    omega
  · rintro ⟨h1, h2⟩
    exact ⟨i - lo, by omega, by omega⟩

theorem idxList_nodup (lo hi : Nat) : (idxList lo hi).Nodup :=
  (List.nodup_range _).map (fun a b h => by omega)

/-! Mod-aware variants of the slot-independence lemmas: the accessors go
through the index truncation, so distinctness mod the node width is the
exact condition for non-interference. -/

theorem getPte_setPte_ne (t : Fin PTRS_PER_PTE → Pte) (i j : Nat) (v : Pte)
    (hij : i % 4 ≠ j % 4) :
    getPte (setPte t i v) j = getPte t j := by
  have hne : finPte j ≠ finPte i := by
    intro h
    have := congrArg Fin.val h
    simp only [finPte, PTRS_PER_PTE] at this
    exact hij this.symm
  simp [getPte, setPte, hne]

theorem getPmd_setPmd_ne (m : PmdTable) (i j : Nat) (v : PmdEntry)
    (hij : i % 4 ≠ j % 4) :
    getPmd (setPmd m i v) j = getPmd m j := by
  have hne : finPmd j ≠ finPmd i := by
    intro h
    have := congrArg Fin.val h
    simp only [finPmd, PTRS_PER_PMD] at this
    exact hij this.symm
  simp [getPmd, setPmd, hne]

theorem getPgd_setPgd_ne (g : Pgd) (i j : Nat) (v : PgdEntry)
    (hij : i % 4 ≠ j % 4) :
    getPgd (setPgd g i v) j = getPgd g j := by
  have hne : finPgd j ≠ finPgd i := by
    intro h
    have := congrArg Fin.val h
    simp only [finPgd, PTRS_PER_PGD] at this
    exact hij this.symm
  simp [getPgd, setPgd, hne]

theorem getPte_congr_mod (t : Fin PTRS_PER_PTE → Pte) (i j : Nat)
    (hij : i % 4 = j % 4) : getPte t i = getPte t j := by
  unfold getPte finPte
  congr 1
  exact Fin.ext (by simpa [PTRS_PER_PTE] using hij)

theorem getPmd_congr_mod (m : PmdTable) (i j : Nat)
    (hij : i % 4 = j % 4) : getPmd m i = getPmd m j := by
  unfold getPmd finPmd
  congr 1
  exact Fin.ext (by simpa [PTRS_PER_PMD] using hij)

/-! ## Leaf-level flush loop -/

/-- Indices not visited by the leaf flush loop are untouched. -/
theorem flushPteGo_untouched :
    ∀ (is : List Nat) (t : Fin PTRS_PER_PTE → Pte) (j : Nat),
      (∀ k ∈ is, k % 4 ≠ j % 4) →
      getPte (flushPteGo t is) j = getPte t j := by
  intro is
  induction is with
  | nil => intro t j _; rfl
  | cons i is ih =>
    intro t j hk
    have hstep : getPte (if (getPte t i).present then setPte t i pte0 else t) j
        = getPte t j := by
      split
      · exact getPte_setPte_ne t i j pte0 (hk i (List.mem_cons_self i is))
      · rfl
    calc getPte (flushPteGo t (i :: is)) j
        = getPte (flushPteGo (if (getPte t i).present then setPte t i pte0 else t) is) j :=
          rfl
      _ = getPte (if (getPte t i).present then setPte t i pte0 else t) j :=
          ih _ j (fun k hmem => hk k (List.mem_cons_of_mem i hmem))
      _ = getPte t j := hstep

/-- The leaf flush loop never makes a non-present entry present. -/
theorem flushPteGo_not_present_persists :
    ∀ (is : List Nat) (t : Fin PTRS_PER_PTE → Pte) (j : Nat),
      (getPte t j).present = false →
      (getPte (flushPteGo t is) j).present = false := by
  intro is
  induction is with
  | nil => intro t j h; exact h
  | cons i is ih =>
    intro t j h
    show (getPte (flushPteGo (if (getPte t i).present then setPte t i pte0 else t) is) j).present
        = false
    by_cases hm : i % 4 = j % 4
    · have : getPte t i = getPte t j := getPte_congr_mod t i j hm
      rw [this, h]
      simp only [Bool.false_eq_true, if_false]
      exact ih t j h
    · apply ih
      split
      · rw [getPte_setPte_ne t i j pte0 hm]; exact h
      · exact h

/-- Every index visited by the leaf flush loop ends up non-present. -/
theorem flushPteGo_cleared :
    ∀ (is : List Nat) (t : Fin PTRS_PER_PTE → Pte) (j : Nat),
      j ∈ is →
      (getPte (flushPteGo t is) j).present = false := by
  intro is
  induction is with
  | nil => intro t j h; exact absurd h (List.not_mem_nil j)
  | cons i is ih =>
    intro t j hmem
    by_cases hj : j ∈ is
    · exact ih _ j hj
    · have hji : j = i := by
        rcases List.mem_cons.mp hmem with h | h
        · exact h
        · exact absurd h hj
      subst hji
      show (getPte (flushPteGo (if (getPte t j).present then setPte t j pte0 else t) is) j).present
          = false
      apply flushPteGo_not_present_persists
      split
      · rw [getPte_setPte_self]
        rfl
      · rename_i hp
        simpa using hp

/-! ## Middle-level flush loop -/

/-- Slots not visited by the pmd flush loop are untouched. -/
theorem flushPmdGo_untouched (lo hi s e : Nat) :
    ∀ (is : List Nat) (m : PmdTable) (safe : Bool) (j : Nat),
      (∀ k ∈ is, k % 4 ≠ j % 4) →
      getPmd (flushPmdGo lo hi s e m safe is).1 j = getPmd m j := by
  intro is
  induction is with
  | nil => intro m safe j _; rfl
  | cons i is ih =>
    intro m safe j hk
    have hne := hk i (List.mem_cons_self i is)
    have htl : ∀ k ∈ is, k % 4 ≠ j % 4 := fun k hmem => hk k (List.mem_cons_of_mem i hmem)
    unfold flushPmdGo
    cases hm : getPmd m i with
    | none =>
      simp only []
      exact ih m safe j htl
    | huge p =>
      simp only []
      rw [ih _ safe j htl]
      exact getPmd_setPmd_ne m i j _ hne
    | table t =>
      simp only []
      by_cases hc : (kvm_mips_flush_gpa_pte t (if i = lo then s else 0)
          (if i = hi then e else UMAX)).2 = true
      · rw [if_pos hc, ih _ safe j htl]
        exact getPmd_setPmd_ne m i j _ hne
      · rw [if_neg hc, ih _ false j htl]
        exact getPmd_setPmd_ne m i j _ hne

/-- The pmd flush loop started with the flag already off reports
unsafe. -/
theorem flushPmdGo_safe_off (lo hi s e : Nat) (is : List Nat) (m : PmdTable) :
    (flushPmdGo lo hi s e m false is).2 = false := by
  by_cases h : (flushPmdGo lo hi s e m false is).2 = true
  · exact absurd (flushPmdGo_safe_mono lo hi s e is m false h) (by decide)
  · simpa using h

/-- What the pmd flush loop leaves in a visited slot, as a function of
the original slot value (each index is visited at most once). -/
theorem flushPmdGo_slot (lo hi s e : Nat) :
    ∀ (is : List Nat) (m : PmdTable) (safe : Bool) (j : Nat),
      j ∈ is → is.Nodup → (∀ k ∈ is, k < 4) →
      getPmd (flushPmdGo lo hi s e m safe is).1 j =
        (match getPmd m j with
         | .none => PmdEntry.none
         | .huge _ => PmdEntry.none
         | .table t =>
           if (kvm_mips_flush_gpa_pte t (if j = lo then s else 0)
                (if j = hi then e else UMAX)).2
           then PmdEntry.none
           else PmdEntry.table (kvm_mips_flush_gpa_pte t (if j = lo then s else 0)
                (if j = hi then e else UMAX)).1) := by
  intro is
  induction is with
  | nil => intro m safe j h; exact absurd h (List.not_mem_nil j)
  | cons i is ih =>
    intro m safe j hmem hnd hb
    have hnd2 := List.nodup_cons.mp hnd
    have hbt : ∀ k ∈ is, k < 4 := fun k hk => hb k (List.mem_cons_of_mem i hk)
    by_cases hji : j = i
    · subst hji
      have hj4 : j < 4 := hb j (List.mem_cons_self j is)
      have htl : ∀ k ∈ is, k % 4 ≠ j % 4 := by
        intro k hk
        have hk4 := hbt k hk
        have : k ≠ j := fun hkj => hnd2.1 (hkj ▸ hk)
        omega
      unfold flushPmdGo
      cases hm : getPmd m j with
      | none =>
        simp only []
        rw [flushPmdGo_untouched lo hi s e is m safe j htl]
        exact hm
      | huge p =>
        simp only []
        rw [flushPmdGo_untouched lo hi s e is _ safe j htl]
        exact getPmd_setPmd_self m j PmdEntry.none
      | table t =>
        simp only []
        by_cases hc : (kvm_mips_flush_gpa_pte t (if j = lo then s else 0)
            (if j = hi then e else UMAX)).2 = true
        · simp only [if_pos hc]
          rw [flushPmdGo_untouched lo hi s e is _ safe j htl]
          exact getPmd_setPmd_self m j PmdEntry.none
        · simp only [if_neg hc]
          rw [flushPmdGo_untouched lo hi s e is _ false j htl]
          exact getPmd_setPmd_self m j _
    · have hjm : j ∈ is := by
        rcases List.mem_cons.mp hmem with h | h
        · exact absurd h hji
        · exact h
      have hj4 : j < 4 := hb j hmem
      have hi4 : i < 4 := hb i (List.mem_cons_self i is)
      have hne : i % 4 ≠ j % 4 := by omega
      unfold flushPmdGo
      cases hm : getPmd m i with
      | none =>
        simp only []
        exact ih m safe j hjm hnd2.2 hbt
      | huge p =>
        simp only []
        rw [ih _ safe j hjm hnd2.2 hbt]
        rw [getPmd_setPmd_ne m i j _ hne]
      | table t =>
        simp only []
        by_cases hc : (kvm_mips_flush_gpa_pte t (if i = lo then s else 0)
            (if i = hi then e else UMAX)).2 = true
        · simp only [if_pos hc]
          rw [ih _ safe j hjm hnd2.2 hbt, getPmd_setPmd_ne m i j _ hne]
        · simp only [if_neg hc]
          rw [ih _ false j hjm hnd2.2 hbt, getPmd_setPmd_ne m i j _ hne]

/-- A visited table child whose own flush was not safe forces the pmd
level to report unsafe. -/
theorem flushPmdGo_unsafe_child (lo hi s e : Nat) :
    ∀ (is : List Nat) (m : PmdTable) (safe : Bool) (j : Nat)
      (t : Fin PTRS_PER_PTE → Pte),
      j ∈ is → (∀ k ∈ is, k < 4) → getPmd m j = .table t →
      (kvm_mips_flush_gpa_pte t (if j = lo then s else 0)
        (if j = hi then e else UMAX)).2 = false →
      (flushPmdGo lo hi s e m safe is).2 = false := by
  intro is
  induction is with
  | nil => intro m safe j t h; exact absurd h (List.not_mem_nil j)
  | cons i is ih =>
    intro m safe j t hmem hb hslot hc
    by_cases hji : j = i
    · subst hji
      unfold flushPmdGo
      simp only [hslot, hc, Bool.false_eq_true, if_false]
      exact flushPmdGo_safe_off lo hi s e is _
    · have hjm : j ∈ is := by
        rcases List.mem_cons.mp hmem with h | h
        · exact absurd h hji
        · exact h
      have hbt : ∀ k ∈ is, k < 4 := fun k hk => hb k (List.mem_cons_of_mem i hk)
      have hne : i % 4 ≠ j % 4 := by
        have := hb i (List.mem_cons_self i is)
        have := hb j hmem
        omega
      unfold flushPmdGo
      cases hm : getPmd m i with
      | none =>
        simp only []
        exact ih m safe j t hjm hbt hslot hc
      | huge p =>
        simp only []
        refine ih _ safe j t hjm hbt ?_ hc
        rw [getPmd_setPmd_ne m i j _ hne]
        exact hslot
      | table u =>
        simp only []
        by_cases hcu : (kvm_mips_flush_gpa_pte u (if i = lo then s else 0)
            (if i = hi then e else UMAX)).2 = true
        · simp only [if_pos hcu]
          refine ih _ safe j t hjm hbt ?_ hc
          rw [getPmd_setPmd_ne m i j _ hne]
          exact hslot
        · simp only [if_neg hcu]
          exact flushPmdGo_safe_off lo hi s e is _

theorem getPmd_setPmd_eqm (m : PmdTable) (i j : Nat) (v : PmdEntry)
    (hij : i % 4 = j % 4) : getPmd (setPmd m i v) j = v := by
  have hf : finPmd j = finPmd i := Fin.ext (by simpa [finPmd, PTRS_PER_PMD] using hij.symm)
  simp [getPmd, setPmd, hf]

theorem getPgd_setPgd_eqm (g : Pgd) (i j : Nat) (v : PgdEntry)
    (hij : i % 4 = j % 4) : getPgd (setPgd g i v) j = v := by
  have hf : finPgd j = finPgd i := Fin.ext (by simpa [finPgd, PTRS_PER_PGD] using hij.symm)
  simp [getPgd, setPgd, hf]

theorem getPgd_congr_mod (g : Pgd) (i j : Nat)
    (hij : i % 4 = j % 4) : getPgd g i = getPgd g j := by
  unfold getPgd finPgd
  congr 1
  exact Fin.ext (by simpa [PTRS_PER_PGD] using hij)

/-! ## Top-level flush loop -/

/-- Slots not visited by the top-level flush loop are untouched. -/
theorem flushPgdGo_untouched (lo hi s e : Nat) :
    ∀ (is : List Nat) (g : Pgd) (safe : Bool) (j : Nat),
      (∀ k ∈ is, k % 4 ≠ j % 4) →
      getPgd (flushPgdGo lo hi s e g safe is).1 j = getPgd g j := by
  intro is
  induction is with
  | nil => intro g safe j _; rfl
  | cons i is ih =>
    intro g safe j hk
    have hne := hk i (List.mem_cons_self i is)
    have htl : ∀ k ∈ is, k % 4 ≠ j % 4 := fun k hmem => hk k (List.mem_cons_of_mem i hmem)
    unfold flushPgdGo
    rw [ih _ _ j htl]
    exact getPgd_setPgd_ne g i j _ hne

/-- What the top-level flush loop leaves in a visited slot: the result
of the folded-pud flush of the original slot (each index is visited at
most once). -/
theorem flushPgdGo_slot (lo hi s e : Nat) :
    ∀ (is : List Nat) (g : Pgd) (safe : Bool) (j : Nat),
      j ∈ is → is.Nodup → (∀ k ∈ is, k < 4) →
      getPgd (flushPgdGo lo hi s e g safe is).1 j =
        (kvm_mips_flush_gpa_pud (getPgd g j) (if j = lo then s else 0)
          (if j = hi then e else UMAX)).1 := by
  intro is
  induction is with
  | nil => intro g safe j h _ _; exact absurd h (List.not_mem_nil j)
  | cons i is ih =>
    intro g safe j hmem hnd hb
    have hnd2 := List.nodup_cons.mp hnd
    have hbt : ∀ k ∈ is, k < 4 := fun k hk => hb k (List.mem_cons_of_mem i hk)
    by_cases hji : j = i
    · subst hji
      have hj4 : j < 4 := hb j (List.mem_cons_self j is)
      have htl : ∀ k ∈ is, k % 4 ≠ j % 4 := by
        intro k hk
        have hk4 := hbt k hk
        have : k ≠ j := fun hkj => hnd2.1 (hkj ▸ hk)
        omega
      unfold flushPgdGo
      rw [flushPgdGo_untouched lo hi s e is _ _ j htl]
      exact getPgd_setPgd_self g j _
    · have hjm : j ∈ is := by
        rcases List.mem_cons.mp hmem with h | h
        · exact absurd h hji
        · exact h
      have hne : i % 4 ≠ j % 4 := by
        have := hb i (List.mem_cons_self i is)
        have := hb j hmem
        omega
      unfold flushPgdGo
      rw [ih _ _ j hjm hnd2.2 hbt, getPgd_setPgd_ne g i j _ hne]

/-- A safe folded-pud flush leaves the slot freed. -/
theorem pud_safe_none (E : PgdEntry) (s e : Nat)
    (h : (kvm_mips_flush_gpa_pud E s e).2 = true) :
    (kvm_mips_flush_gpa_pud E s e).1 = .none := by
  cases E with
  | none => rfl
  | table m =>
    unfold kvm_mips_flush_gpa_pud at h ⊢
    simp only [] at h ⊢
    by_cases hc : (kvm_mips_flush_gpa_pmd m s e).2 = true
    · simp only [if_pos hc]
    · rw [if_neg hc] at h
      simp at h

/-- The pmd flush loop never revives a cleared slot when the range ends
up safe. -/
theorem flushPmdGo_none_persists (lo hi s e : Nat) :
    ∀ (is : List Nat) (m : PmdTable) (safe : Bool) (j : Nat),
      (flushPmdGo lo hi s e m safe is).2 = true →
      getPmd m j = .none →
      getPmd (flushPmdGo lo hi s e m safe is).1 j = .none := by
  intro is
  induction is with
  | nil => intro m safe j _ h; exact h
  | cons i is ih =>
    intro m safe j hsafe hj
    unfold flushPmdGo at hsafe ⊢
    cases hm : getPmd m i with
    | none =>
      simp only [hm] at hsafe ⊢
      exact ih m safe j hsafe hj
    | huge p =>
      simp only [hm] at hsafe ⊢
      refine ih _ safe j hsafe ?_
      by_cases hij : i % 4 = j % 4
      · exact getPmd_setPmd_eqm m i j _ hij
      · rw [getPmd_setPmd_ne m i j _ hij]; exact hj
    | table t =>
      simp only [hm] at hsafe ⊢
      by_cases hc : (kvm_mips_flush_gpa_pte t (if i = lo then s else 0)
          (if i = hi then e else UMAX)).2 = true
      · simp only [if_pos hc] at hsafe ⊢
        refine ih _ safe j hsafe ?_
        by_cases hij : i % 4 = j % 4
        · exact getPmd_setPmd_eqm m i j _ hij
        · rw [getPmd_setPmd_ne m i j _ hij]; exact hj
      · simp only [if_neg hc] at hsafe
        exact absurd (flushPmdGo_safe_mono lo hi s e is _ false hsafe) (by decide)

/-- When the pmd flush reports safe, every visited slot ends up
freed. -/
theorem flushPmdGo_safe_all_none (lo hi s e : Nat) :
    ∀ (is : List Nat) (m : PmdTable) (safe : Bool) (j : Nat),
      (flushPmdGo lo hi s e m safe is).2 = true → j ∈ is →
      getPmd (flushPmdGo lo hi s e m safe is).1 j = .none := by
  intro is
  induction is with
  | nil => intro m safe j _ h; exact absurd h (List.not_mem_nil j)
  | cons i is ih =>
    intro m safe j hsafe hmem
    by_cases hjm : j ∈ is
    · unfold flushPmdGo at hsafe ⊢
      cases hm : getPmd m i with
      | none =>
        simp only [hm] at hsafe ⊢
        exact ih m safe j hsafe hjm
      | huge p =>
        simp only [hm] at hsafe ⊢
        exact ih _ safe j hsafe hjm
      | table t =>
        simp only [hm] at hsafe ⊢
        by_cases hc : (kvm_mips_flush_gpa_pte t (if i = lo then s else 0)
            (if i = hi then e else UMAX)).2 = true
        · simp only [if_pos hc] at hsafe ⊢
          exact ih _ safe j hsafe hjm
        · simp only [if_neg hc] at hsafe
          exact absurd (flushPmdGo_safe_mono lo hi s e is _ false hsafe) (by decide)
    · have hji : j = i := by
        rcases List.mem_cons.mp hmem with h | h
        · exact h
        · exact absurd h hjm
      subst hji
      unfold flushPmdGo at hsafe ⊢
      cases hm : getPmd m j with
      | none =>
        simp only [hm] at hsafe ⊢
        exact flushPmdGo_none_persists lo hi s e is m safe j hsafe hm
      | huge p =>
        simp only [hm] at hsafe ⊢
        exact flushPmdGo_none_persists lo hi s e is _ safe j hsafe
          (getPmd_setPmd_self m j _)
      | table t =>
        simp only [hm] at hsafe ⊢
        by_cases hc : (kvm_mips_flush_gpa_pte t (if j = lo then s else 0)
            (if j = hi then e else UMAX)).2 = true
        · simp only [if_pos hc] at hsafe ⊢
          exact flushPmdGo_none_persists lo hi s e is _ safe j hsafe
            (getPmd_setPmd_self m j _)
        · simp only [if_neg hc] at hsafe
          exact absurd (flushPmdGo_safe_mono lo hi s e is _ false hsafe) (by decide)

/-- The top-level flush loop never revives a cleared slot. -/
theorem flushPgdGo_none_persists (lo hi s e : Nat) :
    ∀ (is : List Nat) (g : Pgd) (safe : Bool) (j : Nat),
      getPgd g j = .none →
      getPgd (flushPgdGo lo hi s e g safe is).1 j = .none := by
  intro is
  induction is with
  | nil => intro g safe j h; exact h
  | cons i is ih =>
    intro g safe j hj
    unfold flushPgdGo
    refine ih _ _ j ?_
    by_cases hij : i % 4 = j % 4
    · rw [getPgd_setPgd_eqm g i j _ hij]
      rw [getPgd_congr_mod g i j hij, hj]
      rfl
    · rw [getPgd_setPgd_ne g i j _ hij]; exact hj

/-- When the top-level flush reports safe, every visited slot ends up
freed. -/
theorem flushPgdGo_safe_all_none (lo hi s e : Nat) :
    ∀ (is : List Nat) (g : Pgd) (safe : Bool) (j : Nat),
      (flushPgdGo lo hi s e g safe is).2 = true → j ∈ is →
      getPgd (flushPgdGo lo hi s e g safe is).1 j = .none := by
  intro is
  induction is with
  | nil => intro g safe j _ h; exact absurd h (List.not_mem_nil j)
  | cons i is ih =>
    intro g safe j hsafe hmem
    by_cases hjm : j ∈ is
    · unfold flushPgdGo at hsafe ⊢
      exact ih _ _ j hsafe hjm
    · have hji : j = i := by
        rcases List.mem_cons.mp hmem with h | h
        · exact h
        · exact absurd h hjm
      subst hji
      unfold flushPgdGo at hsafe ⊢
      have hY : (kvm_mips_flush_gpa_pud (getPgd g j) (if j = lo then s else 0)
          (if j = hi then e else UMAX)).2 = true := by
        have := flushPgdGo_safe_mono lo hi s e is _ _ hsafe
        exact (Bool.and_eq_true _ _).mp this |>.2
      refine flushPgdGo_none_persists lo hi s e is _ _ j ?_
      rw [getPgd_setPgd_self]
      exact pud_safe_none _ _ _ hY

/-! ## Index bounds and the sentinel end address -/

theorem pteIdx_lt4 (a : Nat) : pteIdx a < 4 := pteIdx_lt a

theorem pmdIdx_lt4 (a : Nat) : pmdIdx a < 4 := pmdIdx_lt a

theorem pgdIdx_lt4 (a : Nat) : pgdIdx a < 4 := pgdIdx_lt a

theorem pteIdx_umax : pteIdx UMAX = 3 := by decide

theorem pmdIdx_umax : pmdIdx UMAX = 3 := by decide

theorem pteIdx_zero : pteIdx 0 = 0 := by decide

theorem pmdIdx_zero : pmdIdx 0 = 0 := by decide

/-- The leaf flush reports safe-to-remove exactly when the index range
is the whole node, independently of the node contents. -/
theorem flushPte_safe_iff (t : Fin PTRS_PER_PTE → Pte) (s e : Nat) :
    (kvm_mips_flush_gpa_pte t s e).2 = true ↔
      pteIdx s = 0 ∧ pteIdx e = PTRS_PER_PTE - 1 := by
  unfold kvm_mips_flush_gpa_pte
  simp [Bool.and_eq_true, beq_iff_eq]

/-- The directory-level mapping observable through the per-slot one. -/
theorem lookupMapping_eq_pud (g : Pgd) (gfn : Nat) :
    lookupMapping g gfn =
      pudLookup (getPgd g (pgdIdx (gfn * PAGE_SIZE))) (gfn * PAGE_SIZE) := by
  unfold lookupMapping pudLookup
  cases getPgd g (pgdIdx (gfn * PAGE_SIZE)) <;> rfl

/-- A folded-pud flush removes the present mapping of every address
whose middle and leaf indices fall inside the requested range. -/
theorem pudFlush_in_range (E : PgdEntry) (s e gpa : Nat)
    (h1 : pmdIdx s ≤ pmdIdx gpa) (h2 : pmdIdx gpa ≤ pmdIdx e)
    (h3 : pmdIdx gpa = pmdIdx s → pteIdx s ≤ pteIdx gpa)
    (h4 : pmdIdx gpa = pmdIdx e → pteIdx gpa ≤ pteIdx e) :
    pudLookup (kvm_mips_flush_gpa_pud E s e).1 gpa = none := by
  cases E with
  | none => rfl
  | table m =>
    have hmem : pmdIdx gpa ∈ idxList (pmdIdx s) (pmdIdx e) :=
      (mem_idxList _ _ _).mpr ⟨h1, h2⟩
    have hnd := idxList_nodup (pmdIdx s) (pmdIdx e)
    have hbnd : ∀ k ∈ idxList (pmdIdx s) (pmdIdx e), k < 4 := by
      intro k hk
      rw [mem_idxList] at hk
      have := pmdIdx_lt4 e
      omega
    unfold kvm_mips_flush_gpa_pud
    simp only []
    by_cases hc : (kvm_mips_flush_gpa_pmd m s e).2 = true
    · simp only [if_pos hc]
      rfl
    · simp only [if_neg hc]
      show pmdLookup (kvm_mips_flush_gpa_pmd m s e).1 gpa = none
      unfold kvm_mips_flush_gpa_pmd pmdLookup
      rw [flushPmdGo_slot (pmdIdx s) (pmdIdx e) s e
        (idxList (pmdIdx s) (pmdIdx e)) m _ (pmdIdx gpa) hmem hnd hbnd]
      cases hslot : getPmd m (pmdIdx gpa) with
      | none => simp only [hslot]
      | huge p => simp only [hslot]
      | table t =>
        simp only [hslot]
        by_cases hcc : (kvm_mips_flush_gpa_pte t
            (if pmdIdx gpa = pmdIdx s then s else 0)
            (if pmdIdx gpa = pmdIdx e then e else UMAX)).2 = true
        · simp only [if_pos hcc]
        · simp only [if_neg hcc]
          have hp : (getPte (kvm_mips_flush_gpa_pte t
              (if pmdIdx gpa = pmdIdx s then s else 0)
              (if pmdIdx gpa = pmdIdx e then e else UMAX)).1 (pteIdx gpa)).present
              = false := by
            unfold kvm_mips_flush_gpa_pte
            apply flushPteGo_cleared
            rw [mem_idxList]
            constructor
            · by_cases hms : pmdIdx gpa = pmdIdx s
              · rw [if_pos hms]
                exact h3 hms
              · rw [if_neg hms, pteIdx_zero]
                exact Nat.zero_le _
            · by_cases hme : pmdIdx gpa = pmdIdx e
              · rw [if_pos hme]
                exact h4 hme
              · rw [if_neg hme, pteIdx_umax]
                have := pteIdx_lt4 gpa
                omega
          simp only [hp, Bool.false_eq_true, if_false]

/-- A folded-pud flush preserves the present mapping of every address
whose index path falls outside the requested range, provided the slot
covering the address is not a huge entry inside the middle-index
range (a huge entry straddling the range boundary is cleared whole). -/
theorem pudFlush_out_range (E : PgdEntry) (s e gpa : Nat)
    (hout : ¬(pmdIdx s ≤ pmdIdx gpa ∧ pmdIdx gpa ≤ pmdIdx e ∧
        (pmdIdx gpa = pmdIdx s → pteIdx s ≤ pteIdx gpa) ∧
        (pmdIdx gpa = pmdIdx e → pteIdx gpa ≤ pteIdx e)))
    (hh : ∀ m p, E = .table m → getPmd m (pmdIdx gpa) = .huge p →
        pmdIdx gpa < pmdIdx s ∨ pmdIdx e < pmdIdx gpa) :
    pudLookup (kvm_mips_flush_gpa_pud E s e).1 gpa = pudLookup E gpa := by
  cases E with
  | none => rfl
  | table m =>
    have hm4 := pmdIdx_lt4 gpa
    have he4 := pmdIdx_lt4 e
    have hp4 := pteIdx_lt4 gpa
    by_cases hin : pmdIdx s ≤ pmdIdx gpa ∧ pmdIdx gpa ≤ pmdIdx e
    · have hmem : pmdIdx gpa ∈ idxList (pmdIdx s) (pmdIdx e) :=
        (mem_idxList _ _ _).mpr ⟨hin.1, hin.2⟩
      have hnd := idxList_nodup (pmdIdx s) (pmdIdx e)
      have hbnd : ∀ k ∈ idxList (pmdIdx s) (pmdIdx e), k < 4 := by
        intro k hk
        rw [mem_idxList] at hk
        omega
      have hbd : (pmdIdx gpa = pmdIdx s ∧ pteIdx gpa < pteIdx s) ∨
          (pmdIdx gpa = pmdIdx e ∧ pteIdx e < pteIdx gpa) := by
        by_cases hA : pmdIdx gpa = pmdIdx s ∧ pteIdx gpa < pteIdx s
        · exact Or.inl hA
        · refine Or.inr ?_
          by_cases hB : pmdIdx gpa = pmdIdx e ∧ pteIdx e < pteIdx gpa
          · exact hB
          · exact absurd ⟨hin.1, hin.2, fun h5 => by
              by_contra hc5
              exact hA ⟨h5, by omega⟩, fun h6 => by
              by_contra hc6
              exact hB ⟨h6, by omega⟩⟩ hout
      cases hslot : getPmd m (pmdIdx gpa) with
      | huge p =>
        have := hh m p rfl hslot
        omega
      | none =>
        have hafter : getPmd (kvm_mips_flush_gpa_pmd m s e).1 (pmdIdx gpa)
            = .none := by
          unfold kvm_mips_flush_gpa_pmd
          rw [flushPmdGo_slot (pmdIdx s) (pmdIdx e) s e
            (idxList (pmdIdx s) (pmdIdx e)) m _ (pmdIdx gpa) hmem hnd hbnd]
          simp only [hslot]
        have hbefore : pmdLookup m gpa = none := by
          unfold pmdLookup
          simp only [hslot]
        unfold kvm_mips_flush_gpa_pud
        simp only []
        by_cases hc : (kvm_mips_flush_gpa_pmd m s e).2 = true
        · simp only [if_pos hc]
          show (none : Option Pte) = pmdLookup m gpa
          exact hbefore.symm
        · simp only [if_neg hc]
          show pmdLookup (kvm_mips_flush_gpa_pmd m s e).1 gpa = pmdLookup m gpa
          unfold pmdLookup
          rw [hafter, hslot]
      | table t =>
        have hcs : (kvm_mips_flush_gpa_pte t
            (if pmdIdx gpa = pmdIdx s then s else 0)
            (if pmdIdx gpa = pmdIdx e then e else UMAX)).2 = false := by
          by_cases hc2 : (kvm_mips_flush_gpa_pte t
              (if pmdIdx gpa = pmdIdx s then s else 0)
              (if pmdIdx gpa = pmdIdx e then e else UMAX)).2 = true
          · exfalso
            rcases (flushPte_safe_iff _ _ _).mp hc2 with ⟨hz, hw⟩
            rcases hbd with ⟨hm1, hp1⟩ | ⟨hm2, hp2⟩
            · rw [if_pos hm1] at hz
              omega
            · rw [if_pos hm2] at hw
              have : pteIdx e = PTRS_PER_PTE - 1 := hw
              have h3e : pteIdx e = 3 := this
              omega
          · simpa using hc2
        have hpmdsafe : (kvm_mips_flush_gpa_pmd m s e).2 = false := by
          unfold kvm_mips_flush_gpa_pmd
          exact flushPmdGo_unsafe_child (pmdIdx s) (pmdIdx e) s e
            (idxList (pmdIdx s) (pmdIdx e)) m _ (pmdIdx gpa) t hmem hbnd hslot hcs
        have hslot2 : getPmd (kvm_mips_flush_gpa_pmd m s e).1 (pmdIdx gpa)
            = .table (kvm_mips_flush_gpa_pte t
                (if pmdIdx gpa = pmdIdx s then s else 0)
                (if pmdIdx gpa = pmdIdx e then e else UMAX)).1 := by
          unfold kvm_mips_flush_gpa_pmd
          rw [flushPmdGo_slot (pmdIdx s) (pmdIdx e) s e
            (idxList (pmdIdx s) (pmdIdx e)) m _ (pmdIdx gpa) hmem hnd hbnd]
          simp only [hslot, hcs, Bool.false_eq_true, if_false]
        have huntouched : getPte (kvm_mips_flush_gpa_pte t
            (if pmdIdx gpa = pmdIdx s then s else 0)
            (if pmdIdx gpa = pmdIdx e then e else UMAX)).1 (pteIdx gpa)
            = getPte t (pteIdx gpa) := by
          unfold kvm_mips_flush_gpa_pte
          apply flushPteGo_untouched
          intro k hk
          rw [mem_idxList] at hk
          have hk4 := pteIdx_lt4 (if pmdIdx gpa = pmdIdx e then e else UMAX)
          rcases hbd with ⟨hm1, hp1⟩ | ⟨hm2, hp2⟩
          · rw [if_pos hm1] at hk
            omega
          · rw [if_pos hm2] at hk
            omega
        unfold kvm_mips_flush_gpa_pud
        simp only []
        rw [if_neg (by simp [hpmdsafe])]
        show pmdLookup (kvm_mips_flush_gpa_pmd m s e).1 gpa = pmdLookup m gpa
        unfold pmdLookup
        rw [hslot2, hslot]
        simp only [huntouched]
    · have hinit : (pmdIdx s == 0 && pmdIdx e == PTRS_PER_PMD - 1) = false := by
        by_cases h0 : (pmdIdx s == 0 && pmdIdx e == PTRS_PER_PMD - 1) = true
        · exfalso
          rcases (Bool.and_eq_true _ _).mp h0 with ⟨ha, hb⟩
          have ha2 : pmdIdx s = 0 := by simpa using ha
          have hb2 : pmdIdx e = PTRS_PER_PMD - 1 := by simpa using hb
          have hb3 : pmdIdx e = 3 := hb2
          omega
        · simpa using h0
      have hsafe : (kvm_mips_flush_gpa_pmd m s e).2 = false := by
        unfold kvm_mips_flush_gpa_pmd
        rw [hinit]
        exact flushPmdGo_safe_off _ _ _ _ _ _
      have huntouched : getPmd (kvm_mips_flush_gpa_pmd m s e).1 (pmdIdx gpa)
          = getPmd m (pmdIdx gpa) := by
        unfold kvm_mips_flush_gpa_pmd
        rw [hinit]
        apply flushPmdGo_untouched
        intro k hk
        rw [mem_idxList] at hk
        omega
      unfold kvm_mips_flush_gpa_pud
      simp only []
      rw [if_neg (by simp [hsafe])]
      show pmdLookup (kvm_mips_flush_gpa_pmd m s e).1 gpa = pmdLookup m gpa
      unfold pmdLookup
      rw [huntouched]

/-- A full-directory flush removes the present mapping of every address
whose three-level index path falls inside the requested range. -/
theorem pgdFlush_lookup_in (g : Pgd) (s e gpa : Nat)
    (c1 : pgdIdx s ≤ pgdIdx gpa) (c2 : pgdIdx gpa ≤ pgdIdx e)
    (c3 : pgdIdx gpa = pgdIdx s → pmdIdx s ≤ pmdIdx gpa)
    (c4 : pgdIdx gpa = pgdIdx e → pmdIdx gpa ≤ pmdIdx e)
    (c5 : pgdIdx gpa = pgdIdx s → pmdIdx gpa = pmdIdx s → pteIdx s ≤ pteIdx gpa)
    (c6 : pgdIdx gpa = pgdIdx e → pmdIdx gpa = pmdIdx e → pteIdx gpa ≤ pteIdx e) :
    pudLookup (getPgd (kvm_mips_flush_gpa_pgd g s e).1 (pgdIdx gpa)) gpa = none := by
  have hmem : pgdIdx gpa ∈ idxList (pgdIdx s) (pgdIdx e) :=
    (mem_idxList _ _ _).mpr ⟨c1, c2⟩
  have hnd := idxList_nodup (pgdIdx s) (pgdIdx e)
  have hbnd : ∀ k ∈ idxList (pgdIdx s) (pgdIdx e), k < 4 := by
    intro k hk
    rw [mem_idxList] at hk
    have := pgdIdx_lt4 e
    omega
  unfold kvm_mips_flush_gpa_pgd
  rw [flushPgdGo_slot (pgdIdx s) (pgdIdx e) s e
    (idxList (pgdIdx s) (pgdIdx e)) g _ (pgdIdx gpa) hmem hnd hbnd]
  apply pudFlush_in_range
  · by_cases hts : pgdIdx gpa = pgdIdx s
    · rw [if_pos hts]
      exact c3 hts
    · rw [if_neg hts, pmdIdx_zero]
      exact Nat.zero_le _
  · by_cases hte : pgdIdx gpa = pgdIdx e
    · rw [if_pos hte]
      exact c4 hte
    · rw [if_neg hte, pmdIdx_umax]
      have := pmdIdx_lt4 gpa
      omega
  · by_cases hts : pgdIdx gpa = pgdIdx s
    · rw [if_pos hts]
      exact c5 hts
    · rw [if_neg hts]
      intro hm0
      rw [pteIdx_zero]
      exact Nat.zero_le _
  · by_cases hte : pgdIdx gpa = pgdIdx e
    · rw [if_pos hte]
      exact c6 hte
    · rw [if_neg hte]
      intro hm3
      rw [pteIdx_umax]
      have := pteIdx_lt4 gpa
      omega

/-- A full-directory flush preserves the present mapping of every
address whose index path falls outside the requested range, provided
any huge slot covering the address lies wholly outside the visited
middle-level prefix range. -/
theorem pgdFlush_lookup_out (g : Pgd) (s e gpa : Nat)
    (hout : ¬(pgdIdx s ≤ pgdIdx gpa ∧ pgdIdx gpa ≤ pgdIdx e ∧
        (pgdIdx gpa = pgdIdx s → pmdIdx s ≤ pmdIdx gpa) ∧
        (pgdIdx gpa = pgdIdx e → pmdIdx gpa ≤ pmdIdx e) ∧
        (pgdIdx gpa = pgdIdx s → pmdIdx gpa = pmdIdx s → pteIdx s ≤ pteIdx gpa) ∧
        (pgdIdx gpa = pgdIdx e → pmdIdx gpa = pmdIdx e → pteIdx gpa ≤ pteIdx e)))
    (hh : ∀ m p, getPgd g (pgdIdx gpa) = .table m →
        getPmd m (pmdIdx gpa) = .huge p →
        ((pgdIdx gpa = pgdIdx s ∧ pmdIdx gpa < pmdIdx s) ∨
         (pgdIdx gpa = pgdIdx e ∧ pmdIdx e < pmdIdx gpa) ∨
         pgdIdx gpa < pgdIdx s ∨ pgdIdx e < pgdIdx gpa)) :
    pudLookup (getPgd (kvm_mips_flush_gpa_pgd g s e).1 (pgdIdx gpa)) gpa
      = pudLookup (getPgd g (pgdIdx gpa)) gpa := by
  have ht4 := pgdIdx_lt4 gpa
  have he4 := pgdIdx_lt4 e
  by_cases hti : pgdIdx s ≤ pgdIdx gpa ∧ pgdIdx gpa ≤ pgdIdx e
  · have hmem : pgdIdx gpa ∈ idxList (pgdIdx s) (pgdIdx e) :=
      (mem_idxList _ _ _).mpr ⟨hti.1, hti.2⟩
    have hnd := idxList_nodup (pgdIdx s) (pgdIdx e)
    have hbnd : ∀ k ∈ idxList (pgdIdx s) (pgdIdx e), k < 4 := by
      intro k hk
      rw [mem_idxList] at hk
      omega
    unfold kvm_mips_flush_gpa_pgd
    rw [flushPgdGo_slot (pgdIdx s) (pgdIdx e) s e
      (idxList (pgdIdx s) (pgdIdx e)) g _ (pgdIdx gpa) hmem hnd hbnd]
    apply pudFlush_out_range
    · intro hcov
      apply hout
      refine ⟨hti.1, hti.2, ?_, ?_, ?_, ?_⟩
      · intro hts
        have := hcov.1
        rw [if_pos hts] at this
        exact this
      · intro hte
        have := hcov.2.1
        rw [if_pos hte] at this
        exact this
      · intro hts
        have := hcov.2.2.1
        rw [if_pos hts] at this
        exact this
      · intro hte
        have := hcov.2.2.2
        rw [if_pos hte] at this
        exact this
    · intro m p hgm hslot
      rcases hh m p hgm hslot with ⟨hts, hlt⟩ | ⟨hte, hgt⟩ | hlt2 | hgt2
      · left
        rw [if_pos hts]
        exact hlt
      · right
        rw [if_pos hte]
        exact hgt
      · omega
      · omega
  · unfold kvm_mips_flush_gpa_pgd
    rw [flushPgdGo_untouched (pgdIdx s) (pgdIdx e) s e
      (idxList (pgdIdx s) (pgdIdx e)) g _ (pgdIdx gpa) ?_]
    intro k hk
    rw [mem_idxList] at hk
    omega

/-- The three-level index path of a page-aligned guest address, in
frame-number arithmetic. -/
theorem gfn_gpa_idx (x : Nat) :
    pgdIdx (x * PAGE_SIZE) = x / 16 % 4 ∧
    pmdIdx (x * PAGE_SIZE) = x / 4 % 4 ∧
    pteIdx (x * PAGE_SIZE) = x % 4 := by
  unfold pgdIdx pmdIdx pteIdx PAGE_SIZE PGDIR_SIZE PMD_SIZE
    PTRS_PER_PGD PTRS_PER_PMD PTRS_PER_PTE
  refine ⟨?_, ?_, ?_⟩ <;> omega

/-! ## C4: unmap range round trip -/

/-- Counterexample for C4 as stated.  First, not-found is too strong for
addresses inside the range: flushing exactly frame 0 covers its leaf
node only partially, so the node is kept and the NULL-cache walk still
lands on a (now zeroed) pte slot, returning a pte position rather than
not-found.  Second, preservation is false outside the range when a huge
entry straddles the boundary: a huge mapping of frames 0-3 flushed over
frames 2-10 is cleared whole, destroying the prior mapping of frame 0,
which is outside the range. -/
theorem c4_roundtrip_counterexample :
    kvm_mips_walk_pgd (kvm_mips_flush_gpa_pt (onePtePgd cleanPte) 0 0).1 none 0
        = some ((kvm_mips_flush_gpa_pt (onePtePgd cleanPte) 0 0).1, none,
            WalkRes.pte) ∧
    lookupMapping (oneHugePgd dirtyPte) 0 = some dirtyPte ∧
    lookupMapping (kvm_mips_flush_gpa_pt (oneHugePgd dirtyPte) 2 10).1 0 = none := by
  refine ⟨?_, ?_, ?_⟩ <;> decide

set_option maxHeartbeats 2000000 in
/-- C4 (amended): after `kvm_mips_flush_gpa_pt(kvm, a, b)` (the
inclusive frame range `[a, b]`; `unmap_range(a, b)` is
`kvm_mips_flush_gpa_pt(kvm, a, b - 1)`), no frame in the range retains a
present mapping — though the walk may still find a zeroed leaf slot in a
partially covered node — and every frame outside the range keeps exactly
its prior mapping, provided a huge mapping covering that frame does not
straddle the range boundary (the flush clears a huge slot whole).
Bounds keep the frame numbers inside the modelled directory. -/
theorem c4_unmap_roundtrip (g : Pgd) (a b gfn : Nat)
    (hab : a ≤ b) (hb : b < 64) (hgfn : gfn < 64) :
    (a ≤ gfn → gfn ≤ b →
      lookupMapping (kvm_mips_flush_gpa_pt g a b).1 gfn = none) ∧
    ((gfn < a ∨ b < gfn) →
      (walkIsHuge g (gfn * PAGE_SIZE) = true →
        gfn / 4 * 4 + 3 < a ∨ b < gfn / 4 * 4) →
      lookupMapping (kvm_mips_flush_gpa_pt g a b).1 gfn
        = lookupMapping g gfn) := by
  have hia := gfn_gpa_idx a
  have hib := gfn_gpa_idx b
  have hig := gfn_gpa_idx gfn
  constructor
  · intro h1 h2
    rw [lookupMapping_eq_pud]
    unfold kvm_mips_flush_gpa_pt
    apply pgdFlush_lookup_in g (a * PAGE_SIZE) (b * PAGE_SIZE) (gfn * PAGE_SIZE)
    · simp only [hia.1, hig.1]
      omega
    · simp only [hig.1, hib.1]
      omega
    · simp only [hia.1, hig.1, hia.2.1, hig.2.1]
      omega
    · simp only [hig.1, hib.1, hig.2.1, hib.2.1]
      omega
    · simp only [hia.1, hig.1, hia.2.1, hig.2.1, hia.2.2, hig.2.2]
      omega
    · simp only [hig.1, hib.1, hig.2.1, hib.2.1, hig.2.2, hib.2.2]
      omega
  · intro hno hhg
    rw [lookupMapping_eq_pud, lookupMapping_eq_pud]
    unfold kvm_mips_flush_gpa_pt
    apply pgdFlush_lookup_out g (a * PAGE_SIZE) (b * PAGE_SIZE) (gfn * PAGE_SIZE)
    · intro hcov
      simp only [hia.1, hia.2.1, hia.2.2, hib.1, hib.2.1, hib.2.2,
        hig.1, hig.2.1, hig.2.2] at hcov
      obtain ⟨k1, k2, k3, k4, k5, k6⟩ := hcov
      have hge : a ≤ gfn := by
        clear k2 k4 k6 hia hib hig hno hhg
        omega
      have hle : gfn ≤ b := by
        clear k1 k3 k5 hia hib hig hno hhg hge
        omega
      omega
    · intro m p hgm hslot
      have hw : walkIsHuge g (gfn * PAGE_SIZE) = true := by
        unfold walkIsHuge
        simp only [hgm, hslot]
        rfl
      have hbl := hhg hw
      simp only [hia.1, hia.2.1, hib.1, hib.2.1, hig.1, hig.2.1]
      clear hno hhg hw hgm hslot hia hib hig
      omega

/-- Witness for C4 (amended): unmapping frames 0-1 of a directory whose
only mapping is at frame 0 removes that mapping; unmapping frames 2-3
of the same directory leaves the frame-0 mapping untouched. -/
theorem c4_unmap_roundtrip_witness :
    lookupMapping (kvm_mips_flush_gpa_pt (onePtePgd cleanPte) 0 1).1 0 = none ∧
    lookupMapping (kvm_mips_flush_gpa_pt (onePtePgd cleanPte) 2 3).1 0
      = lookupMapping (onePtePgd cleanPte) 0 :=
  ⟨(c4_unmap_roundtrip (onePtePgd cleanPte) 0 1 0 (by decide) (by decide)
      (by decide)).1 (by decide) (by decide),
   (c4_unmap_roundtrip (onePtePgd cleanPte) 2 3 0 (by decide) (by decide)
      (by decide)).2 (by decide) (by decide)⟩

/-! ## C5: safe-to-remove propagation -/

/-- C5: a node reports safe-to-remove to its parent only if the range
covered its entire index range.  At the leaf level the flag is exactly
full index coverage, independent of contents.  At the pmd and pgd
levels a safe report implies full index coverage and every slot freed
(so every in-range child also reported safe: an unsafe table child
forces the flag off and stays in place).  A safe folded-pud report
frees the slot.  And a node only partially covered — here a table child
whose range starts at a nonzero leaf index — is left structurally in
place even if every entry in it became invalid. -/
theorem c5_safe_to_remove_contract :
    (∀ (t : Fin PTRS_PER_PTE → Pte) (s e : Nat),
        (kvm_mips_flush_gpa_pte t s e).2 = true ↔
          pteIdx s = 0 ∧ pteIdx e = PTRS_PER_PTE - 1) ∧
    (∀ (m : PmdTable) (s e : Nat),
        (kvm_mips_flush_gpa_pmd m s e).2 = true →
          pmdIdx s = 0 ∧ pmdIdx e = PTRS_PER_PMD - 1 ∧
          ∀ j, j < 4 → getPmd (kvm_mips_flush_gpa_pmd m s e).1 j = .none) ∧
    (∀ (E : PgdEntry) (s e : Nat),
        (kvm_mips_flush_gpa_pud E s e).2 = true →
          (kvm_mips_flush_gpa_pud E s e).1 = .none) ∧
    (∀ (g : Pgd) (s e : Nat),
        (kvm_mips_flush_gpa_pgd g s e).2 = true →
          pgdIdx s = 0 ∧ pgdIdx e = PTRS_PER_PGD - 1 ∧
          ∀ j, j < 4 → getPgd (kvm_mips_flush_gpa_pgd g s e).1 j = .none) ∧
    (∀ (m : PmdTable) (t : Fin PTRS_PER_PTE → Pte) (s e : Nat),
        getPmd m (pmdIdx s) = .table t → pmdIdx s ≤ pmdIdx e → pteIdx s ≠ 0 →
          ∃ t2, getPmd (kvm_mips_flush_gpa_pmd m s e).1 (pmdIdx s)
            = .table t2) := by
  refine ⟨fun t s e => flushPte_safe_iff t s e, ?_, ?_, ?_, ?_⟩
  · intro m s e h
    have hinit : (pmdIdx s == 0 && pmdIdx e == PTRS_PER_PMD - 1) = true := by
      unfold kvm_mips_flush_gpa_pmd at h
      exact flushPmdGo_safe_mono _ _ _ _ _ _ _ h
    obtain ⟨h0, h3⟩ := (Bool.and_eq_true _ _).mp hinit
    have h0n : pmdIdx s = 0 := by simpa using h0
    have h3n : pmdIdx e = PTRS_PER_PMD - 1 := by simpa using h3
    refine ⟨h0n, h3n, ?_⟩
    intro j hj
    have h3e : pmdIdx e = 3 := h3n
    have hmem : j ∈ idxList (pmdIdx s) (pmdIdx e) :=
      (mem_idxList _ _ _).mpr ⟨by omega, by omega⟩
    unfold kvm_mips_flush_gpa_pmd at h ⊢
    exact flushPmdGo_safe_all_none _ _ _ _ _ _ _ j h hmem
  · exact fun E s e h => pud_safe_none E s e h
  · intro g s e h
    have hinit : (pgdIdx s == 0 && pgdIdx e == PTRS_PER_PGD - 1) = true := by
      unfold kvm_mips_flush_gpa_pgd at h
      exact flushPgdGo_safe_mono _ _ _ _ _ _ _ h
    obtain ⟨h0, h3⟩ := (Bool.and_eq_true _ _).mp hinit
    have h0n : pgdIdx s = 0 := by simpa using h0
    have h3n : pgdIdx e = PTRS_PER_PGD - 1 := by simpa using h3
    refine ⟨h0n, h3n, ?_⟩
    intro j hj
    have h3e : pgdIdx e = 3 := h3n
    have hmem : j ∈ idxList (pgdIdx s) (pgdIdx e) :=
      (mem_idxList _ _ _).mpr ⟨by omega, by omega⟩
    unfold kvm_mips_flush_gpa_pgd at h ⊢
    exact flushPgdGo_safe_all_none _ _ _ _ _ _ _ j h hmem
  · intro m t s e hsl hle hne
    have hmem : pmdIdx s ∈ idxList (pmdIdx s) (pmdIdx e) :=
      (mem_idxList _ _ _).mpr ⟨Nat.le_refl _, hle⟩
    have hnd := idxList_nodup (pmdIdx s) (pmdIdx e)
    have hbnd : ∀ k ∈ idxList (pmdIdx s) (pmdIdx e), k < 4 := by
      intro k hk
      rw [mem_idxList] at hk
      have := pmdIdx_lt4 e
      omega
    unfold kvm_mips_flush_gpa_pmd
    rw [flushPmdGo_slot (pmdIdx s) (pmdIdx e) s e
      (idxList (pmdIdx s) (pmdIdx e)) m _ (pmdIdx s) hmem hnd hbnd]
    simp only [hsl, eq_self_iff_true, if_true]
    have hcs : (kvm_mips_flush_gpa_pte t s
        (if pmdIdx s = pmdIdx e then e else UMAX)).2 = false := by
      by_cases hc : (kvm_mips_flush_gpa_pte t s
          (if pmdIdx s = pmdIdx e then e else UMAX)).2 = true
      · exact absurd ((flushPte_safe_iff _ _ _).mp hc).1 hne
      · simpa using hc
    simp only [hcs, Bool.false_eq_true, if_false]
    exact ⟨_, rfl⟩

/-- Witness for C5: a full leaf range is reported safe; a fully covered
pmd with one huge mapping is emptied, as is a fully covered directory;
a safe folded-pud flush frees the slot; and a pmd whose range starts at
leaf index 1 of a table child keeps that child in place. -/
theorem c5_safe_to_remove_contract_witness :
    (kvm_mips_flush_gpa_pte (setPte zeroPteTable 0 cleanPte) 0 12288).2 = true ∧
    getPmd (kvm_mips_flush_gpa_pmd (setPmd emptyPmdTable 0
      (PmdEntry.huge cleanPte)) 0 65535).1 2 = PmdEntry.none ∧
    (kvm_mips_flush_gpa_pud (PgdEntry.table (setPmd emptyPmdTable 0
      (PmdEntry.huge cleanPte))) 0 65535).1 = PgdEntry.none ∧
    getPgd (kvm_mips_flush_gpa_pgd (oneHugePgd cleanPte) 0 262143).1 0
      = PgdEntry.none ∧
    (∃ t2, getPmd (kvm_mips_flush_gpa_pmd (setPmd emptyPmdTable 0
      (PmdEntry.table (setPte zeroPteTable 0 cleanPte))) 4096 16383).1 0
        = PmdEntry.table t2) :=
  ⟨(c5_safe_to_remove_contract.1 _ 0 12288).mpr (by decide),
   (c5_safe_to_remove_contract.2.1 _ 0 65535 (by decide)).2.2 2 (by decide),
   c5_safe_to_remove_contract.2.2.1 _ 0 65535 (by decide),
   (c5_safe_to_remove_contract.2.2.2.1 _ 0 262143 (by decide)).2.2 0 (by decide),
   c5_safe_to_remove_contract.2.2.2.2 _ (setPte zeroPteTable 0 cleanPte)
     4096 16383 (by decide) (by decide) (by decide)⟩

end LoongsonDune
